import Mathlib

/-!
# Verification of the Proxmox load balancer core

A shallow embedding of the balancing control loop of `src/load_balancer.py`
(class `LoadBalancer`) together with the manual-migration endpoint of
`src/load_balancer_api.py`, and proofs about the embedded definitions.

Conventions:
* Python floats (loads, timestamps, weights) are modelled as rationals `ℚ`;
  the anomaly detector, whose property depends on the semantics of the real
  square root, is modelled over `ℝ` at the end of the file.
* The injected hypervisor client (`ProxmoxAPI`) and the node selector used by
  `LoadBalancer` are not part of the balancing code under `src/` (the
  `NodeSelector` and `ProxmoxAPI` classes found in `src/node_selector.py` and
  `src/proxmox_api.py` belong to the deployment tooling and have different
  interfaces).  Their responses are therefore modelled as components of an
  environment record `Env` over which theorems quantify universally; the node
  scorer itself is additionally modelled from the spec further below.
* Dictionaries keyed by vmid are modelled as functions `Nat → Option _`;
  Python's `key in dict` test corresponds to `isSome`.
-/

namespace LB

/-- One entry of `GET cluster/tasks` (`type`, `id`, `status`, `exitstatus`,
`starttime`), as consumed by `balance_cluster` and `monitor_migrations`. -/
structure ClusterTask where
  type : String
  id : String
  status : String
  exitstatus : String
  starttime : ℚ
deriving DecidableEq

/-- One entry of `proxmox_api.get_resource_usage()` as read by
`detect_overloaded_nodes` / `detect_underloaded_nodes`. -/
structure NodeUsage where
  name : String
  status : String
  cpuUsage : ℚ
  memUsed : ℚ
  memTotal : ℚ
deriving DecidableEq

/-- One entry of `proxmox_api.get_nodes()`. -/
structure NodeEntry where
  node : String
  status : String
deriving DecidableEq

/-- One entry of `proxmox_api.get_node_vms(node)`. -/
structure VMSummary where
  vmid : Nat
  status : String
  cpu : ℚ
deriving DecidableEq

/-- Result of `proxmox_api.get_vm_status(node, vmid)`.  Optional fields model
keys that may be absent from the returned dictionary. -/
structure VMStatus where
  status : String
  name : String
  cpu : ℚ
  mem : ℚ
  maxcpu : Option ℚ
  cpus : Option ℚ
  maxmem : Option ℚ
  maxdisk : Option ℚ
deriving DecidableEq

/-- Resource requirements of a VM as produced by
`LoadBalancer._get_vm_requirements`. -/
structure VMReq where
  cpu : ℚ
  memory : ℚ
  disk : ℚ
deriving DecidableEq

/-- `LoadBalancer._get_vm_requirements` (src/load_balancer.py:228-242):
`maxcpu` falling back to `cpus` falling back to 1; `maxmem` defaulting to
1 GiB; `maxdisk` defaulting to 10 GiB. -/
def getVmRequirements (v : VMStatus) : VMReq :=
  { cpu := v.maxcpu.getD (v.cpus.getD 1)
    memory := v.maxmem.getD (1024 * 1024 * 1024)
    disk := v.maxdisk.getD (10 * 1024 * 1024 * 1024) }

/-- A migration record as appended to `migration_history`
(src/load_balancer.py:502-512 and src/load_balancer_api.py:178-188). -/
structure MigRecord where
  vmId : Nat
  sourceNode : String
  targetNode : String
  timestamp : ℚ
  reason : String
  vmName : String
  result : String
  completionTime : Option ℚ
  error : Option String
deriving DecidableEq

/-- A sample of `vm_performance_history[vmid]`.  The dictionaries appended by
the different call sites carry different key sets, so the data keys are
optional. -/
structure PerfSample where
  timestamp : ℚ
  cpu : Option ℚ
  memUsed : Option ℚ
  node : String
  migrationSuccess : Option Bool
deriving DecidableEq

/-- Observation of one call to `proxmox_api.migrate_vm` made during a tick,
with the outcome (`ok`) and, as ghost data for the proofs, the value of
`last_balance_time[vmId]` immediately before the call (`prevBalance`). -/
structure Attempt where
  vmId : Nat
  source : String
  target : String
  reason : String
  ok : Bool
  prevBalance : Option ℚ
deriving DecidableEq

/-- The configuration fields of `LoadBalancer.config` that the balancing
logic under verification reads (src/load_balancer.py:54-93). -/
structure Config where
  highLoadThreshold : ℚ
  lowLoadThreshold : ℚ
  minBalanceInterval : ℚ
  maxParallelMigrations : Nat
  migrateHighLoad : Bool
  vmExclusions : List Nat
  nodeExclusions : List String
  considerAffinity : Bool
  vmGroups : List (String × List Nat)
  considerTimeOfDay : Bool
  offHoursStart : Nat
  offHoursEnd : Nat

/-- The environment of one tick: responses of the injected hypervisor client
and of the node selector, plus the wall clock.  Claims quantify over all
environments. -/
structure Env where
  runningTasks : List ClusterTask
  nodesUsage : List NodeUsage
  nodes : List NodeEntry
  nodeVMs : String → List VMSummary
  vmStatus : String → Nat → Option VMStatus
  canAccept : String → VMReq → Bool
  selectBest : VMReq → List String → Option String
  migrateOk : String → Nat → String → Bool
  now : ℚ
  currentHour : Nat

/-- The mutable state of a `LoadBalancer` instance that the verified
operations read and write: `last_balance_time`, `migration_history` and
`vm_performance_history`. -/
structure LBState where
  lastBalanceTime : Nat → Option ℚ
  migrationHistory : List MigRecord
  vmPerfHistory : Nat → Option (List PerfSample)

/-- The freshly constructed balancer state (src/load_balancer.py:38-40). -/
def initialLBState : LBState :=
  { lastBalanceTime := fun _ => none
    migrationHistory := []
    vmPerfHistory := fun _ => none }

/-- The off-hours window test of `_is_migration_allowed`
(src/load_balancer.py:214-220): `start < end` means the window lies within
one day, otherwise it wraps midnight. -/
def isOffHours (startH endH h : Nat) : Bool :=
  if startH < endH then decide (startH ≤ h ∧ h < endH)
  else decide (h ≥ startH ∨ h < endH)

/-- `LoadBalancer._is_migration_allowed` (src/load_balancer.py:188-226):
exclusion list, cool-down against `last_balance_time`, then the off-hours
window when `consider_time_of_day` is set. -/
def isMigrationAllowed (cfg : Config) (env : Env)
    (lastBalance : Nat → Option ℚ) (vmId : Nat) : Bool :=
  if cfg.vmExclusions.contains vmId then false
  else if (match lastBalance vmId with
           | some t => decide (env.now - t < cfg.minBalanceInterval)
           | none => false) then false
  else if cfg.considerTimeOfDay &&
      !(isOffHours cfg.offHoursStart cfg.offHoursEnd env.currentHour) then false
  else true

/-- The mem fraction `used/total` guarded against `total = 0`
(src/load_balancer.py:267). -/
def memFrac (n : NodeUsage) : ℚ :=
  if n.memTotal > 0 then n.memUsed / n.memTotal else 0

/-- `LoadBalancer.detect_overloaded_nodes` (src/load_balancer.py:244-272). -/
def detectOverloadedNodes (cfg : Config) (env : Env) : List String :=
  (env.nodesUsage.filter (fun n =>
    n.status == "online" && !(cfg.nodeExclusions.contains n.name) &&
    (decide (n.cpuUsage > cfg.highLoadThreshold) ||
     decide (memFrac n > cfg.highLoadThreshold)))).map (fun n => n.name)

/-- `LoadBalancer.detect_underloaded_nodes` (src/load_balancer.py:274-302). -/
def detectUnderloadedNodes (cfg : Config) (env : Env) : List String :=
  (env.nodesUsage.filter (fun n =>
    n.status == "online" && !(cfg.nodeExclusions.contains n.name) &&
    (decide (n.cpuUsage < cfg.lowLoadThreshold) &&
     decide (memFrac n < cfg.lowLoadThreshold)))).map (fun n => n.name)

/-- Stable insertion step of a descending-by-cpu sort, matching Python's
stable `sorted(key=cpu, reverse=True)`: the inserted VM, which precedes the
already-sorted ones in the input, goes in front of the first element whose
cpu does not exceed its own, so VMs with equal cpu keep their input
order. -/
def insertByCpu (vm : VMSummary) : List VMSummary → List VMSummary
  | [] => [vm]
  | w :: ws => if vm.cpu ≥ w.cpu then vm :: w :: ws else w :: insertByCpu vm ws

/-- Stable sort of VM summaries by cpu usage, highest first
(src/load_balancer.py:340). -/
def sortByCpuDesc : List VMSummary → List VMSummary
  | [] => []
  | v :: vs => insertByCpu v (sortByCpuDesc vs)

/-- `LoadBalancer.identify_vms_to_migrate` (src/load_balancer.py:304-343):
running VMs passing the migration gate, sorted by cpu descending, the first
`count` vmids. -/
def identifyVmsToMigrate (cfg : Config) (env : Env)
    (lastBalance : Nat → Option ℚ) (nodeName : String) (count : Nat) :
    List Nat :=
  let eligible := (env.nodeVMs nodeName).filter (fun vm =>
    vm.status == "running" && isMigrationAllowed cfg env lastBalance vm.vmid)
  ((sortByCpuDesc eligible).take count).map (fun vm => vm.vmid)

/-- One balancing strategy triple `(name, sources, targets)`
(src/load_balancer.py:374-421). -/
structure Strategy where
  name : String
  sources : List String
  targets : List String
deriving DecidableEq

/-- The node each group VM currently sits on: the first online node whose VM
list contains it (src/load_balancer.py:399-409), in group order. -/
def vmLocations (env : Env) (groupVms : List Nat) : List (Nat × String) :=
  groupVms.filterMap (fun v =>
    (env.nodes.find? (fun nd =>
      nd.status == "online" && (env.nodeVMs nd.node).any (fun vm => vm.vmid == v))).map
      (fun nd => (v, nd.node)))

/-- First occurrences of a list's elements, in order: the key order of a
Python dict built by repeated insertion. -/
def firstOccs : List String → List String
  | [] => []
  | x :: xs => x :: (firstOccs xs).filter (fun y => y ≠ x)

/-- `max(node_counts.items(), key=count)` over the insertion-ordered count
dict (src/load_balancer.py:413-418): the first key attaining the maximal
count. -/
def firstMaxNode (locNodes : List String) : Option String :=
  (firstOccs locNodes).foldl (fun best n =>
    match best with
    | none => some n
    | some b => if locNodes.count n > locNodes.count b then some n else some b)
    none

/-- The affinity consolidation strategies, one per configured group that is
split across nodes (src/load_balancer.py:393-421). -/
def affinityStrategies (cfg : Config) (env : Env) : List Strategy :=
  cfg.vmGroups.filterMap (fun g =>
    if g.2.length < 2 then none
    else
      let locNodes := (vmLocations env g.2).map (fun p => p.2)
      if (firstOccs locNodes).length ≤ 1 then none
      else
        match firstMaxNode locNodes with
        | none => none
        | some target =>
            some ⟨"affinity", locNodes.filter (fun n => n ≠ target), [target]⟩)

/-- The ordered strategy list a tick builds (src/load_balancer.py:374-421):
`high_to_low`, then `distribution`, then the affinity strategies. -/
def buildStrategies (cfg : Config) (env : Env) (migrationsAllowed : Nat) :
    List Strategy :=
  let overloaded := detectOverloadedNodes cfg env
  let underloaded := detectUnderloadedNodes cfg env
  let s1 :=
    if cfg.migrateHighLoad && !overloaded.isEmpty &&
        decide (migrationsAllowed > 0) then
      [⟨"high_to_low", overloaded, underloaded⟩]
    else []
  let s2 :=
    if overloaded.isEmpty && !underloaded.isEmpty &&
        decide (migrationsAllowed > 0) then
      let allNodes := (env.nodes.filter (fun n =>
        n.status == "online" && !(underloaded.contains n.node) &&
        !(cfg.nodeExclusions.contains n.node))).map (fun n => n.node)
      if !allNodes.isEmpty then [⟨"distribution", allNodes, underloaded⟩]
      else []
    else []
  let s3 :=
    if cfg.considerAffinity && !cfg.vmGroups.isEmpty &&
        decide (migrationsAllowed > 0) then
      affinityStrategies cfg env
    else []
  s1 ++ s2 ++ s3

/-- Destination choice for one candidate (src/load_balancer.py:446-476): for
`affinity`, the first target node outside the exclusion list the selector
scores finitely; otherwise the same search over the target list with a
fall-back to `select_best_node`; with no targets, `select_best_node`
directly. -/
def findBestNode (env : Env) (strategyName : String) (targets : List String)
    (excluded : List String) (req : VMReq) : Option String :=
  if strategyName == "affinity" then
    targets.find? (fun n => !(excluded.contains n) && env.canAccept n req)
  else if !targets.isEmpty then
    match targets.find? (fun n => !(excluded.contains n) && env.canAccept n req) with
    | some n => some n
    | none => env.selectBest req excluded
  else env.selectBest req excluded

/-- `vm_performance_history` update on dispatch
(src/load_balancer.py:514-523): create the key when absent, then append —
with no cap applied. -/
def perfAppend (perf : Nat → Option (List PerfSample)) (vmId : Nat)
    (s : PerfSample) : Nat → Option (List PerfSample) :=
  fun v => if v = vmId then some ((perf vmId).getD [] ++ [s]) else perf v

/-- The evolving state of one tick: the balancer state plus the migration
counter and the observed `migrate_vm` calls. -/
structure TickState where
  lastBalanceTime : Nat → Option ℚ
  migrationHistory : List MigRecord
  vmPerfHistory : Nat → Option (List PerfSample)
  performed : Nat
  attempts : List Attempt

/-- Processing of one candidate VM inside the strategy execution loop
(src/load_balancer.py:438-529): look up its status, compute requirements,
choose a destination, call `migrate_vm`, and on success stamp
`last_balance_time`, append the migration record and a performance sample. -/
def processVM (cfg : Config) (env : Env) (strategyName : String)
    (targets : List String) (sourceNode : String) (st : TickState)
    (vmId : Nat) : TickState :=
  match env.vmStatus sourceNode vmId with
  | none => st
  | some vmSt =>
    let req := getVmRequirements vmSt
    let excluded := sourceNode :: cfg.nodeExclusions
    match findBestNode env strategyName targets excluded req with
    | none => st
    | some best =>
      let prev := st.lastBalanceTime vmId
      if env.migrateOk sourceNode vmId best then
        { lastBalanceTime := fun v =>
            if v = vmId then some env.now else st.lastBalanceTime v
          migrationHistory := st.migrationHistory ++
            [⟨vmId, sourceNode, best, env.now, strategyName, vmSt.name,
              "initiated", none, none⟩]
          vmPerfHistory := perfAppend st.vmPerfHistory vmId
            ⟨env.now, some vmSt.cpu, some vmSt.mem, sourceNode, none⟩
          performed := st.performed + 1
          attempts := st.attempts ++
            [⟨vmId, sourceNode, best, strategyName, true, prev⟩] }
      else
        { st with attempts := st.attempts ++
            [⟨vmId, sourceNode, best, strategyName, false, prev⟩] }

/-- The `for vm_id in vms_to_migrate` loop, which breaks once a successful
dispatch reaches the tick's budget (src/load_balancer.py:438-529). -/
def processVMs (cfg : Config) (env : Env) (allowed : Nat)
    (strategyName : String) (targets : List String) (sourceNode : String)
    (st : TickState) : List Nat → TickState
  | [] => st
  | v :: rest =>
    let st' := processVM cfg env strategyName targets sourceNode st v
    if st.performed < st'.performed ∧ allowed ≤ st'.performed then st'
    else processVMs cfg env allowed strategyName targets sourceNode st' rest

/-- The `for source_node in source_nodes` loop
(src/load_balancer.py:430-532): stop when the budget is exhausted, otherwise
select up to the remaining budget of candidates and process them. -/
def processSources (cfg : Config) (env : Env) (allowed : Nat)
    (strategyName : String) (targets : List String) (st : TickState) :
    List String → TickState
  | [] => st
  | s :: rest =>
    if allowed ≤ st.performed then st
    else
      let batch := identifyVmsToMigrate cfg env st.lastBalanceTime s
        (allowed - st.performed)
      let st' := processVMs cfg env allowed strategyName targets s st batch
      processSources cfg env allowed strategyName targets st' rest

/-- The `for strategy in strategies` loop (src/load_balancer.py:424-532). -/
def processStrategies (cfg : Config) (env : Env) (allowed : Nat)
    (st : TickState) : List Strategy → TickState
  | [] => st
  | s :: rest =>
    if allowed ≤ st.performed then st
    else processStrategies cfg env allowed
      (processSources cfg env allowed s.name s.targets st s.sources) rest

/-- Result of one tick: the new balancer state, the observed `migrate_vm`
calls, and the boolean `balance_cluster` returns. -/
structure TickResult where
  state : LBState
  attempts : List Attempt
  returnValue : Bool

/-- The number of running `qmigrate` cluster tasks observed at the start of a
tick (src/load_balancer.py:354-356). -/
def inflightCount (env : Env) : Nat :=
  (env.runningTasks.filter (fun t => t.type == "qmigrate")).length

/-- `LoadBalancer.balance_cluster` (src/load_balancer.py:345-549): skip the
tick when the observed in-flight migrations reach the parallelism cap,
otherwise build the strategy list and execute it against the remaining
budget.  The critical-VM refresh and `learn_from_migrations` at the end of
the Python method do not touch the state modelled here. -/
def balanceCluster (cfg : Config) (env : Env) (st : LBState) : TickResult :=
  if cfg.maxParallelMigrations ≤ inflightCount env then
    ⟨st, [], false⟩
  else
    let allowed := cfg.maxParallelMigrations - inflightCount env
    let ts : TickState :=
      ⟨st.lastBalanceTime, st.migrationHistory, st.vmPerfHistory, 0, []⟩
    let ts' := processStrategies cfg env allowed ts
      (buildStrategies cfg env allowed)
    ⟨⟨ts'.lastBalanceTime, ts'.migrationHistory, ts'.vmPerfHistory⟩,
      ts'.attempts, decide (ts'.performed > 0)⟩

/-- The vmids of the successful dispatches among a tick's observed calls. -/
def okVmids (l : List Attempt) : List Nat :=
  (l.filter (fun a => a.ok)).map (fun a => a.vmId)

/-- `needle` occurs as a contiguous sublist of `hay`. -/
def listInfixOf (needle : List Char) : List Char → Bool
  | [] => needle.isEmpty
  | c :: rest => needle.isPrefixOf (c :: rest) || listInfixOf needle rest

/-- Python's `needle in hay` substring test. -/
def strContains (hay needle : String) : Bool :=
  listInfixOf needle.toList hay.toList

/-- The task-matching test of `monitor_migrations`
(src/load_balancer.py:1180-1183): type `qmigrate` and a task id containing
both `str(vmid)` and the source node name. -/
def taskMatches (vmId : Nat) (source : String) (t : ClusterTask) : Bool :=
  t.type == "qmigrate" && strContains t.id (toString vmId) &&
    strContains t.id source

/-- `sorted(matching_tasks, key=starttime, reverse=True)[0]`
(src/load_balancer.py:1187): the first task attaining the maximal
`starttime` (Python's sort is stable). -/
def pickLatest (tasks : List ClusterTask) : Option ClusterTask :=
  tasks.foldl (fun best t =>
    match best with
    | none => some t
    | some b => if t.starttime > b.starttime then some t else some b) none

/-- Resolution of a single migration record by the tracker
(src/load_balancer.py:1174-1208): only records with `result = "initiated"`
are considered; the latest matching task, when `stopped`, resolves the
record to `success` (exitstatus `OK`) or `failed` (any other exitstatus,
recorded as `error`). -/
def resolveRecord (tasks : List ClusterTask) (now : ℚ) (m : MigRecord) :
    MigRecord :=
  if m.result == "initiated" then
    match pickLatest (tasks.filter (taskMatches m.vmId m.sourceNode)) with
    | none => m
    | some task =>
      if task.status == "stopped" then
        if task.exitstatus == "OK" then
          { m with result := "success", completionTime := some now }
        else
          { m with result := "failed", completionTime := some now,
                   error := some task.exitstatus }
      else m
  else m

/-- The tracker's performance-history append, which happens only when the
vmid already has an entry (`if vm_id in self.vm_performance_history`,
src/load_balancer.py:1197 and 1211). -/
def perfAppendIfPresent (perf : Nat → Option (List PerfSample)) (vmId : Nat)
    (s : PerfSample) : Nat → Option (List PerfSample) :=
  match perf vmId with
  | some l => fun v => if v = vmId then some (l ++ [s]) else perf v
  | none => perf

/-- `LoadBalancer.monitor_migrations` (src/load_balancer.py:1155-1216):
resolve each record against the cluster task list, appending a performance
sample for each record that resolves in this call. -/
def monitorMigrations (tasks : List ClusterTask) (now : ℚ) (st : LBState) :
    LBState :=
  let step := fun (acc : List MigRecord × (Nat → Option (List PerfSample)))
      (m : MigRecord) =>
    let m' := resolveRecord tasks now m
    let perf' :=
      if m.result == "initiated" && m'.result == "success" then
        perfAppendIfPresent acc.2 m.vmId
          ⟨now, none, none, m.targetNode, some true⟩
      else if m.result == "initiated" && m'.result == "failed" then
        perfAppendIfPresent acc.2 m.vmId
          ⟨now, none, none, m.sourceNode, some false⟩
      else acc.2
    (acc.1 ++ [m'], perf')
  let r := st.migrationHistory.foldl step ([], st.vmPerfHistory)
  { st with migrationHistory := r.1, vmPerfHistory := r.2 }

/-- The push-and-trim of `periodic_update_resources`
(src/load_balancer.py:1250-1261): append the sample, then keep only the last
`max_history = 100` entries. -/
def pushTrimSample (l : List PerfSample) (s : PerfSample) : List PerfSample :=
  let l2 := l ++ [s]
  if l2.length > 100 then l2.drop (l2.length - 100) else l2

/-- The per-VM part of `periodic_update_resources`
(src/load_balancer.py:1236-1261): for a running VM with a readable status,
push a sample and trim to the cap.  (The node selector history refresh and
the daily VM group refresh touch other state.) -/
def periodicPerVM (env : Env) (node : String)
    (perf : Nat → Option (List PerfSample)) (vm : VMSummary) :
    Nat → Option (List PerfSample) :=
  if vm.status == "running" then
    match env.vmStatus node vm.vmid with
    | none => perf
    | some vs =>
      fun v =>
        if v = vm.vmid then
          some (pushTrimSample ((perf vm.vmid).getD [])
            ⟨env.now, some vs.cpu, some vs.mem, node, none⟩)
        else perf v
  else perf

/-- The per-node part of `periodic_update_resources`: skip offline nodes,
fold the push-and-trim over the node's VM list. -/
def periodicPerNode (env : Env) (perf : Nat → Option (List PerfSample))
    (nd : NodeEntry) : Nat → Option (List PerfSample) :=
  if nd.status == "online" then
    (env.nodeVMs nd.node).foldl (periodicPerVM env nd.node) perf
  else perf

/-- The `vm_performance_history` mutation of
`LoadBalancer.periodic_update_resources` (src/load_balancer.py:1218-1261). -/
def periodicUpdateResources (env : Env) (st : LBState) : LBState :=
  { st with
    vmPerfHistory := env.nodes.foldl (periodicPerNode env) st.vmPerfHistory }

/-- Parameters of a `POST /api/migrate` request
(src/load_balancer_api.py:144-197). -/
structure ManualReq where
  vmId : Nat
  sourceNode : String
  targetNode : String
deriving DecidableEq

/-- The state mutation of the manual-migration endpoint `migrate_vm`
(src/load_balancer_api.py:144-197): nothing on a missing VM status (404) or
a rejected dispatch (500); on a successful dispatch, append a `manual`
migration record and stamp `last_balance_time`. -/
def manualMigrate (vmStatusRes : Option VMStatus) (ok : Bool) (now : ℚ)
    (r : ManualReq) (st : LBState) : LBState :=
  match vmStatusRes with
  | none => st
  | some vs =>
    if ok then
      { st with
        migrationHistory := st.migrationHistory ++
          [⟨r.vmId, r.sourceNode, r.targetNode, now, "manual", vs.name,
            "initiated", none, none⟩]
        lastBalanceTime := fun v =>
          if v = r.vmId then some now else st.lastBalanceTime v }
    else st

/-- One operation of an execution trace: a balancer tick, a tracker pass, a
periodic resource update, or a manual migration through the API — the four
operations of the repository that touch the state modelled here. -/
inductive LBOp where
  | tick (cfg : Config) (env : Env)
  | monitor (tasks : List ClusterTask) (now : ℚ)
  | periodic (env : Env)
  | manual (vmStatusRes : Option VMStatus) (ok : Bool) (now : ℚ)
      (req : ManualReq)

/-- The wall-clock time at which an operation runs. -/
def opTime : LBOp → ℚ
  | .tick _ env => env.now
  | .monitor _ now => now
  | .periodic env => env.now
  | .manual _ _ now _ => now

/-- The state transition of one operation. -/
def applyOp (st : LBState) : LBOp → LBState
  | .tick cfg env => (balanceCluster cfg env st).state
  | .monitor tasks now => monitorMigrations tasks now st
  | .periodic env => periodicUpdateResources env st
  | .manual vs ok now req => manualMigrate vs ok now req st

/-- An execution: the fold of `applyOp` from the freshly constructed
balancer state. -/
def applyTrace (ops : List LBOp) : LBState :=
  ops.foldl applyOp initialLBState

/-- The operation dispatched a migration of `v` successfully in state `st`:
the write condition for `last_balance_time` (src/load_balancer.py:497-499
and src/load_balancer_api.py:176-189). -/
def opDispatchedOk (st : LBState) (op : LBOp) (v : Nat) : Prop :=
  match op with
  | .tick cfg env =>
      ∃ a ∈ (balanceCluster cfg env st).attempts, a.ok = true ∧ a.vmId = v
  | .monitor _ _ => False
  | .periodic _ => False
  | .manual vs ok _ req => vs.isSome = true ∧ ok = true ∧ req.vmId = v

/-- The sum of a weights dictionary. -/
def weightsSum (w : List (String × ℚ)) : ℚ :=
  (w.map (fun p => p.2)).sum

/-- The `resource_weights` handling shared by `load_config`
(src/load_balancer.py:100-109) and the `PUT /api/config` handler
(src/load_balancer_api.py:239-247): a submitted map whose sum is farther
than 0.01 from 1 is replaced by each weight divided by the total, otherwise
it is stored as given. -/
def storeResourceWeights (w : List (String × ℚ)) : List (String × ℚ) :=
  if |weightsSum w - 1| > 1 / 100 then
    w.map (fun p => (p.1, p.2 / weightsSum w))
  else w

/-! ## The node scorer, modelled from the spec

The `NodeSelector` instance used by `LoadBalancer` (`calculate_node_score`,
`select_best_node`, `set_weights`, `update_resource_history`) is code of
this repository that is not under `src/`; `src/node_selector.py` contains
the deployment tooling's selector, whose interface does not match.  The
scorer is therefore modelled from spec §4.C. -/

/-- Modelled from the spec: the per-node snapshot the scorer reads (missing
`NodeSelector` state) — latest and historic per-metric loads and free
resources (spec §4.C). -/
structure SNode where
  name : String
  online : Bool
  maxcpu : ℚ
  memFree : ℚ
  diskFree : ℚ
  cpuHistory : List ℚ
  memHistory : List ℚ
  diskHistory : List ℚ
deriving DecidableEq

/-- Modelled from the spec: the scorer's metric weights (spec §4.C step 5;
network is omitted there). -/
structure ScoreWeights where
  cpu : ℚ
  memory : ℚ
  disk : ℚ
deriving DecidableEq

/-- Clamp to `[0,1]` (spec §4.C step 2). -/
def clamp01 (q : ℚ) : ℚ := max 0 (min 1 q)

/-- Modelled from the spec: simple OLS linear regression over history
indexed `0..n-1`, evaluated at `x` (spec §4.C step 2). -/
def olsPredict (ys : List ℚ) (x : ℚ) : ℚ :=
  let n : ℚ := ys.length
  let xs := (List.range ys.length).map (fun i => (i : ℚ))
  let sx := xs.sum
  let sy := ys.sum
  let sxy := ((xs.zip ys).map (fun p => p.1 * p.2)).sum
  let sxx := (xs.map (fun a => a * a)).sum
  let d := n * sxx - sx * sx
  if d = 0 then ys.getLastD 0
  else
    let slope := (n * sxy - sx * sy) / d
    let intercept := (sy - slope * sx) / n
    intercept + slope * x

/-- The last `k` entries of a series. -/
def lastN (k : Nat) (l : List ℚ) : List ℚ := l.drop (l.length - k)

/-- Modelled from the spec: population standard deviation of a series, with
the square root taken by a supplied function (the numeric realization of
`** 0.5` is not fixed by the spec); 0 on an empty series. -/
def stddevWith (sqrtFn : ℚ → ℚ) (l : List ℚ) : ℚ :=
  if l.length = 0 then 0
  else
    let n : ℚ := l.length
    let mu := l.sum / n
    sqrtFn ((l.map (fun x => (x - mu) ^ 2)).sum / n)

/-- Modelled from the spec: the next-step prediction of a metric (spec §4.C
step 2) — OLS evaluated at `n + hoursAhead`, clamped to `[0,1]`; the current
value when fewer than 3 points exist. -/
def predictNext (hoursAhead : ℚ) (h : List ℚ) : ℚ :=
  if h.length < 3 then h.getLastD 0
  else clamp01 (olsPredict h ((h.length : ℚ) + hoursAhead))

/-- Modelled from the spec: `NodeSelector.calculate_node_score` (spec §4.C).
`none` is the spec's `+∞`: produced when the node has no history (step 1) or
when the given requirement is infeasible on the node (step 4).  Otherwise
the weighted blend of current and predicted loads (steps 2-3 and 5) plus the
volatility penalty (step 6). -/
def calculateNodeScore (sqrtFn : ℚ → ℚ) (w : ScoreWeights) (hoursAhead : ℚ)
    (node : SNode) (vmReq : Option VMReq) : Option ℚ :=
  if node.cpuHistory.isEmpty then none
  else
    let curC := node.cpuHistory.getLastD 0
    let curM := node.memHistory.getLastD 0
    let curD := node.diskHistory.getLastD 0
    let sC := 7 / 10 * curC + 3 / 10 * predictNext hoursAhead node.cpuHistory
    let sM := 7 / 10 * curM + 3 / 10 * predictNext hoursAhead node.memHistory
    let sD := 7 / 10 * curD + 3 / 10 * predictNext hoursAhead node.diskHistory
    let feasible :=
      match vmReq with
      | none => true
      | some r => decide (r.cpu ≤ node.maxcpu * (1 - curC) ∧
          r.memory ≤ node.memFree ∧ r.disk ≤ node.diskFree)
    if !feasible then none
    else
      let base := w.cpu * sC + w.memory * sM + w.disk * sD
      let pen :=
        if node.cpuHistory.length > 5 then
          1 / 10 * (stddevWith sqrtFn (lastN 5 node.cpuHistory) +
            stddevWith sqrtFn (lastN 5 node.memHistory)) / 2
        else 0
      some (base + pen)

/-- Modelled from the spec: one step of the minimum-score search of
`select_best_node` — a node with no finite score is skipped, a
strictly better finite score replaces the incumbent (spec §4.C step 7: ties
keep the earlier node). -/
def selectStep (sqrtFn : ℚ → ℚ) (w : ScoreWeights) (hoursAhead : ℚ)
    (vmReq : Option VMReq) (best : Option (String × ℚ)) (n : SNode) :
    Option (String × ℚ) :=
  match calculateNodeScore sqrtFn w hoursAhead n vmReq with
  | none => best
  | some s =>
    match best with
    | none => some (n.name, s)
    | some b => if s < b.2 then some (n.name, s) else b

/-- Modelled from the spec: `NodeSelector.select_best_node` (spec §4.C) —
minimum finite score over online, non-excluded nodes, ties broken by node
order; `none` when no node has a finite score. -/
def selectBestNode (sqrtFn : ℚ → ℚ) (w : ScoreWeights) (hoursAhead : ℚ)
    (nodes : List SNode) (vmReq : Option VMReq) (excluded : List String) :
    Option String :=
  ((nodes.filter (fun n => n.online && !(excluded.contains n.name))).foldl
    (selectStep sqrtFn w hoursAhead vmReq) none).map (fun b => b.1)

/-! ## The anomaly detector on VM series

`LoadBalancer.detect_anomalies` (src/load_balancer.py:1338-1364), VM part:
mean and standard deviation over the last 5 CPU samples, compared against
`history[-1]` — the last element of that same window.  The standard
deviation is the real square root of the population variance, so this part
is modelled over `ℝ`. -/

/-- The 5-sample window `history[-5:]` of VM CPU values
(src/load_balancer.py:1342). -/
def vmWindow (history : List ℝ) : List ℝ := history.drop (history.length - 5)

/-- `cpu_mean = sum(cpu_values) / 5` (src/load_balancer.py:1343). -/
noncomputable def vmWindowMean (history : List ℝ) : ℝ :=
  (vmWindow history).sum / 5

/-- `cpu_std = (sum((x - cpu_mean) ** 2 for x in cpu_values) / 5) ** 0.5`
(src/load_balancer.py:1344). -/
noncomputable def vmWindowStd (history : List ℝ) : ℝ :=
  Real.sqrt (((vmWindow history).map
    (fun x => (x - vmWindowMean history) ^ 2)).sum / 5)

/-- `current_cpu = history[-1]` (src/load_balancer.py:1346). -/
noncomputable def vmCurrentCpu (history : List ℝ) : ℝ := history.getLastD 0

/-- The condition under which `detect_anomalies` appends a `vm_cpu_spike`
entry for a VM CPU series (src/load_balancer.py:1341-1364): at least 5
samples, positive standard deviation, and a z-score above 3. -/
def vmCpuSpike (history : List ℝ) : Prop :=
  5 ≤ history.length ∧ 0 < vmWindowStd history ∧
    3 < (vmCurrentCpu history - vmWindowMean history) / vmWindowStd history

/-! ## Lemmas: dispatch counting (C1) -/

theorem okVmids_append (l : List Attempt) (a : Attempt) :
    okVmids (l ++ [a]) = okVmids l ++ if a.ok then [a.vmId] else [] := by
  by_cases h : a.ok <;> simp [okVmids, List.filter_append, h]

theorem processVM_performed (cfg : Config) (env : Env) (sn : String)
    (tg : List String) (src : String) (st : TickState) (v : Nat) :
    st.performed ≤ (processVM cfg env sn tg src st v).performed ∧
      (processVM cfg env sn tg src st v).performed ≤ st.performed + 1 := by
  cases hv : env.vmStatus src v with
  | none => simp [processVM, hv]
  | some vmSt =>
    cases hb : findBestNode env sn tg (src :: cfg.nodeExclusions)
        (getVmRequirements vmSt) with
    | none => simp [processVM, hv, hb]
    | some best =>
      by_cases h : env.migrateOk src v best <;> simp [processVM, hv, hb, h]

theorem processVM_okCount (cfg : Config) (env : Env) (sn : String)
    (tg : List String) (src : String) (st : TickState) (v : Nat)
    (h : (okVmids st.attempts).length = st.performed) :
    (okVmids (processVM cfg env sn tg src st v).attempts).length =
      (processVM cfg env sn tg src st v).performed := by
  cases hv : env.vmStatus src v with
  | none => simpa [processVM, hv] using h
  | some vmSt =>
    cases hb : findBestNode env sn tg (src :: cfg.nodeExclusions)
        (getVmRequirements vmSt) with
    | none => simpa [processVM, hv, hb] using h
    | some best =>
      by_cases hm : env.migrateOk src v best <;>
        simp [processVM, hv, hb, hm, okVmids_append, h]

theorem processVMs_okCount (cfg : Config) (env : Env) (allowed : Nat)
    (sn : String) (tg : List String) (src : String) (l : List Nat)
    (st : TickState)
    (h : (okVmids st.attempts).length = st.performed) :
    (okVmids (processVMs cfg env allowed sn tg src st l).attempts).length =
      (processVMs cfg env allowed sn tg src st l).performed := by
  induction l generalizing st with
  | nil => simpa [processVMs] using h
  | cons v rest ih =>
    rw [processVMs]
    split
    · exact processVM_okCount cfg env sn tg src st v h
    · exact ih _ (processVM_okCount cfg env sn tg src st v h)

theorem processVMs_le (cfg : Config) (env : Env) (allowed : Nat)
    (sn : String) (tg : List String) (src : String) (l : List Nat)
    (st : TickState) (h : st.performed < allowed) :
    (processVMs cfg env allowed sn tg src st l).performed ≤ allowed := by
  induction l generalizing st with
  | nil => simpa [processVMs] using h.le
  | cons v rest ih =>
    rw [processVMs]
    have h2 := processVM_performed cfg env sn tg src st v
    split
    · omega
    · rename_i hcond
      rcases Nat.lt_or_ge (processVM cfg env sn tg src st v).performed allowed with
        hlt | hge
      · exact ih _ hlt
      · exfalso; omega

theorem processSources_okCount (cfg : Config) (env : Env) (allowed : Nat)
    (sn : String) (tg : List String) (l : List String) (st : TickState)
    (h : (okVmids st.attempts).length = st.performed) :
    (okVmids (processSources cfg env allowed sn tg st l).attempts).length =
      (processSources cfg env allowed sn tg st l).performed := by
  induction l generalizing st with
  | nil => simpa [processSources] using h
  | cons s rest ih =>
    rw [processSources]
    split
    · exact h
    · exact ih _ (processVMs_okCount cfg env allowed sn tg s _ st h)

theorem processSources_le (cfg : Config) (env : Env) (allowed : Nat)
    (sn : String) (tg : List String) (l : List String) (st : TickState)
    (h : st.performed ≤ allowed) :
    (processSources cfg env allowed sn tg st l).performed ≤ allowed := by
  induction l generalizing st with
  | nil => simpa [processSources] using h
  | cons s rest ih =>
    rw [processSources]
    split
    · exact h
    · rename_i hcond
      exact ih _ (processVMs_le cfg env allowed sn tg s _ st (by omega))

theorem processStrategies_okCount (cfg : Config) (env : Env) (allowed : Nat)
    (l : List Strategy) (st : TickState)
    (h : (okVmids st.attempts).length = st.performed) :
    (okVmids (processStrategies cfg env allowed st l).attempts).length =
      (processStrategies cfg env allowed st l).performed := by
  induction l generalizing st with
  | nil => simpa [processStrategies] using h
  | cons s rest ih =>
    rw [processStrategies]
    split
    · exact h
    · exact ih _ (processSources_okCount cfg env allowed s.name s.targets _ st h)

theorem processStrategies_le (cfg : Config) (env : Env) (allowed : Nat)
    (l : List Strategy) (st : TickState) (h : st.performed ≤ allowed) :
    (processStrategies cfg env allowed st l).performed ≤ allowed := by
  induction l generalizing st with
  | nil => simpa [processStrategies] using h
  | cons s rest ih =>
    rw [processStrategies]
    split
    · exact h
    · exact ih _ (processSources_le cfg env allowed s.name s.targets _ st h)

/-! ## Lemmas: per-VM dispatch discipline (C2) -/

theorem insertByCpu_perm (vm : VMSummary) (l : List VMSummary) :
    (insertByCpu vm l).Perm (vm :: l) := by
  induction l with
  | nil => simp [insertByCpu]
  | cons w ws ih =>
    rw [insertByCpu]
    split
    · exact List.Perm.refl _
    · exact (ih.cons w).trans (List.Perm.swap vm w ws)

theorem sortByCpuDesc_perm (l : List VMSummary) :
    (sortByCpuDesc l).Perm l := by
  induction l with
  | nil => simp [sortByCpuDesc]
  | cons v vs ih =>
    exact (insertByCpu_perm v (sortByCpuDesc vs)).trans (ih.cons v)

theorem identify_mem_allowed (cfg : Config) (env : Env)
    (lb : Nat → Option ℚ) (s : String) (c : Nat) (v : Nat)
    (hv : v ∈ identifyVmsToMigrate cfg env lb s c) :
    isMigrationAllowed cfg env lb v = true := by
  unfold identifyVmsToMigrate at hv
  obtain ⟨vm, hvm, hveq⟩ := List.mem_map.1 hv
  have h1 := List.take_subset _ _ hvm
  have h2 := (sortByCpuDesc_perm _).subset h1
  have h3 := List.of_mem_filter h2
  simp only [Bool.and_eq_true] at h3
  exact hveq ▸ h3.2

theorem identify_nodup (cfg : Config) (env : Env) (lb : Nat → Option ℚ)
    (s : String) (c : Nat)
    (h : ((env.nodeVMs s).map VMSummary.vmid).Nodup) :
    (identifyVmsToMigrate cfg env lb s c).Nodup := by
  unfold identifyVmsToMigrate
  have h1 : (((env.nodeVMs s).filter (fun vm =>
      vm.status == "running" &&
      isMigrationAllowed cfg env lb vm.vmid)).map VMSummary.vmid).Nodup :=
    h.sublist ((List.filter_sublist _).map VMSummary.vmid)
  have h2 : ((sortByCpuDesc ((env.nodeVMs s).filter (fun vm =>
      vm.status == "running" &&
      isMigrationAllowed cfg env lb vm.vmid))).map VMSummary.vmid).Nodup :=
    (((sortByCpuDesc_perm _).map VMSummary.vmid).nodup_iff).2 h1
  exact h2.sublist ((List.take_sublist _ _).map VMSummary.vmid)

/-- The cool-down condition of `_is_migration_allowed`
(src/load_balancer.py:202-206), as a predicate on the recorded last balance
time of a VM: no record, or at least `min_balance_interval` seconds old. -/
def cooldownOk (cfg : Config) (env : Env) : Option ℚ → Prop
  | none => True
  | some t => cfg.minBalanceInterval ≤ env.now - t

instance (cfg : Config) (env : Env) (o : Option ℚ) :
    Decidable (cooldownOk cfg env o) := by
  cases o with
  | none => exact isTrue trivial
  | some t => exact inferInstanceAs (Decidable (_ ≤ _))

theorem allowed_cooldownOk (cfg : Config) (env : Env)
    (lb : Nat → Option ℚ) (v : Nat)
    (h : isMigrationAllowed cfg env lb v = true) :
    cooldownOk cfg env (lb v) := by
  cases hl : lb v with
  | none => trivial
  | some t =>
    by_cases h2 : env.now - t < cfg.minBalanceInterval
    · exfalso
      by_cases h1 : cfg.vmExclusions.contains v <;>
        simp [isMigrationAllowed, h1, hl, h2] at h
    · exact le_of_not_lt h2

theorem processVM_lb_other (cfg : Config) (env : Env) (sn : String)
    (tg : List String) (src : String) (st : TickState) (v u : Nat)
    (hu : u ≠ v) :
    (processVM cfg env sn tg src st v).lastBalanceTime u =
      st.lastBalanceTime u := by
  cases hv : env.vmStatus src v with
  | none => simp [processVM, hv]
  | some vmSt =>
    cases hb : findBestNode env sn tg (src :: cfg.nodeExclusions)
        (getVmRequirements vmSt) with
    | none => simp [processVM, hv, hb]
    | some best =>
      by_cases h : env.migrateOk src v best <;>
        simp [processVM, hv, hb, h, hu]

/-- The invariant maintained across the strategy execution loops: every
successful dispatch so far has stamped `last_balance_time` with the tick
time, the successfully dispatched vmids are distinct, and every
`migrate_vm` call was made with a satisfied cool-down. -/
def TickInv2 (cfg : Config) (env : Env) (ts : TickState) : Prop :=
  (∀ a ∈ ts.attempts, a.ok = true → ts.lastBalanceTime a.vmId = some env.now) ∧
  (okVmids ts.attempts).Nodup ∧
  (∀ a ∈ ts.attempts, cooldownOk cfg env a.prevBalance)

theorem processVM_inv2 (cfg : Config) (env : Env) (sn : String)
    (tg : List String) (src : String) (st : TickState) (v : Nat)
    (hmin : 0 < cfg.minBalanceInterval)
    (hcd : cooldownOk cfg env (st.lastBalanceTime v))
    (h : TickInv2 cfg env st) :
    TickInv2 cfg env (processVM cfg env sn tg src st v) := by
  obtain ⟨hP, hN, hQ⟩ := h
  cases hv : env.vmStatus src v with
  | none => simpa [processVM, hv] using ⟨hP, hN, hQ⟩
  | some vmSt =>
    cases hb : findBestNode env sn tg (src :: cfg.nodeExclusions)
        (getVmRequirements vmSt) with
    | none => simpa [processVM, hv, hb] using ⟨hP, hN, hQ⟩
    | some best =>
      by_cases hm : env.migrateOk src v best
      · have hvnot : v ∉ okVmids st.attempts := by
          intro hin
          obtain ⟨a, ha, hav⟩ := List.mem_map.1 hin
          have haok := List.of_mem_filter ha
          have := hP a (List.mem_of_mem_filter ha) haok
          rw [hav] at this
          rw [this] at hcd
          simp only [cooldownOk] at hcd
          simp at hcd
          exact absurd hcd (by linarith)
        refine ⟨?_, ?_, ?_⟩
        · intro a ha haok
          simp only [processVM, hv, hb, hm, if_pos] at ha ⊢
          simp only [List.mem_append, List.mem_singleton] at ha
          rcases ha with ha | rfl
          · have := hP a ha haok
            by_cases hav : a.vmId = v <;> simp [hav, this]
          · simp
        · simp only [processVM, hv, hb, hm, if_pos, okVmids_append]
          simp only [List.nodup_append]
          exact ⟨hN, by simp, by simpa using fun hvv => hvnot hvv⟩
        · intro a ha
          simp only [processVM, hv, hb, hm, if_pos] at ha
          simp only [List.mem_append, List.mem_singleton] at ha
          rcases ha with ha | rfl
          · exact hQ a ha
          · exact hcd
      · refine ⟨?_, ?_, ?_⟩
        · intro a ha haok
          simp only [processVM, hv, hb, hm] at ha ⊢
          simp at ha
          rcases ha with ha | rfl
          · exact hP a ha haok
          · simp at haok
        · simpa [processVM, hv, hb, hm, okVmids_append] using hN
        · intro a ha
          simp only [processVM, hv, hb, hm] at ha
          simp at ha
          rcases ha with ha | rfl
          · exact hQ a ha
          · exact hcd

theorem processVMs_inv2 (cfg : Config) (env : Env) (allowed : Nat)
    (sn : String) (tg : List String) (src : String) (l : List Nat)
    (st : TickState) (hmin : 0 < cfg.minBalanceInterval) (hl : l.Nodup)
    (hcd : ∀ u ∈ l, cooldownOk cfg env (st.lastBalanceTime u))
    (h : TickInv2 cfg env st) :
    TickInv2 cfg env (processVMs cfg env allowed sn tg src st l) := by
  induction l generalizing st with
  | nil => simpa [processVMs] using h
  | cons v rest ih =>
    have h' := processVM_inv2 cfg env sn tg src st v hmin
      (hcd v (List.mem_cons_self v rest)) h
    have hcd' : ∀ u ∈ rest,
        cooldownOk cfg env
          ((processVM cfg env sn tg src st v).lastBalanceTime u) := by
      intro u hu
      have huv : u ≠ v := fun he => (List.nodup_cons.1 hl).1 (he ▸ hu)
      rw [processVM_lb_other cfg env sn tg src st v u huv]
      exact hcd u (List.mem_cons_of_mem v hu)
    rw [processVMs]
    split
    · exact h'
    · exact ih _ (List.nodup_cons.1 hl).2 hcd' h'

theorem processSources_inv2 (cfg : Config) (env : Env) (allowed : Nat)
    (sn : String) (tg : List String) (l : List String) (st : TickState)
    (hmin : 0 < cfg.minBalanceInterval)
    (hwf : ∀ n, ((env.nodeVMs n).map VMSummary.vmid).Nodup)
    (h : TickInv2 cfg env st) :
    TickInv2 cfg env (processSources cfg env allowed sn tg st l) := by
  induction l generalizing st with
  | nil => simpa [processSources] using h
  | cons s rest ih =>
    rw [processSources]
    split
    · exact h
    · refine ih _ (processVMs_inv2 cfg env allowed sn tg s _ st hmin
        (identify_nodup cfg env st.lastBalanceTime s _ (hwf s)) ?_ h)
      intro u hu
      exact allowed_cooldownOk cfg env st.lastBalanceTime u
        (identify_mem_allowed cfg env st.lastBalanceTime s _ u hu)

theorem processStrategies_inv2 (cfg : Config) (env : Env) (allowed : Nat)
    (l : List Strategy) (st : TickState)
    (hmin : 0 < cfg.minBalanceInterval)
    (hwf : ∀ n, ((env.nodeVMs n).map VMSummary.vmid).Nodup)
    (h : TickInv2 cfg env st) :
    TickInv2 cfg env (processStrategies cfg env allowed st l) := by
  induction l generalizing st with
  | nil => simpa [processStrategies] using h
  | cons s rest ih =>
    rw [processStrategies]
    split
    · exact h
    · exact ih _ (processSources_inv2 cfg env allowed s.name s.targets _ st
        hmin hwf h)

theorem processVM_invQ (cfg : Config) (env : Env) (sn : String)
    (tg : List String) (src : String) (st : TickState) (v : Nat)
    (hcd : cooldownOk cfg env (st.lastBalanceTime v))
    (h : ∀ a ∈ st.attempts, cooldownOk cfg env a.prevBalance) :
    ∀ a ∈ (processVM cfg env sn tg src st v).attempts,
      cooldownOk cfg env a.prevBalance := by
  cases hv : env.vmStatus src v with
  | none => simpa [processVM, hv] using h
  | some vmSt =>
    cases hb : findBestNode env sn tg (src :: cfg.nodeExclusions)
        (getVmRequirements vmSt) with
    | none => simpa [processVM, hv, hb] using h
    | some best =>
      by_cases hm : env.migrateOk src v best
      · intro a ha
        simp only [processVM, hv, hb, hm, if_pos] at ha
        simp only [List.mem_append, List.mem_singleton] at ha
        rcases ha with ha | rfl
        · exact h a ha
        · exact hcd
      · intro a ha
        simp only [processVM, hv, hb, hm] at ha
        simp at ha
        rcases ha with ha | rfl
        · exact h a ha
        · exact hcd

theorem processVMs_invQ (cfg : Config) (env : Env) (allowed : Nat)
    (sn : String) (tg : List String) (src : String) (l : List Nat)
    (st : TickState) (hl : l.Nodup)
    (hcd : ∀ u ∈ l, cooldownOk cfg env (st.lastBalanceTime u))
    (h : ∀ a ∈ st.attempts, cooldownOk cfg env a.prevBalance) :
    ∀ a ∈ (processVMs cfg env allowed sn tg src st l).attempts,
      cooldownOk cfg env a.prevBalance := by
  induction l generalizing st with
  | nil => simpa [processVMs] using h
  | cons v rest ih =>
    have h' := processVM_invQ cfg env sn tg src st v
      (hcd v (List.mem_cons_self v rest)) h
    have hcd' : ∀ u ∈ rest,
        cooldownOk cfg env
          ((processVM cfg env sn tg src st v).lastBalanceTime u) := by
      intro u hu
      have huv : u ≠ v := fun he => (List.nodup_cons.1 hl).1 (he ▸ hu)
      rw [processVM_lb_other cfg env sn tg src st v u huv]
      exact hcd u (List.mem_cons_of_mem v hu)
    rw [processVMs]
    split
    · exact h'
    · exact ih _ (List.nodup_cons.1 hl).2 hcd' h'

theorem processSources_invQ (cfg : Config) (env : Env) (allowed : Nat)
    (sn : String) (tg : List String) (l : List String) (st : TickState)
    (hwf : ∀ n, ((env.nodeVMs n).map VMSummary.vmid).Nodup)
    (h : ∀ a ∈ st.attempts, cooldownOk cfg env a.prevBalance) :
    ∀ a ∈ (processSources cfg env allowed sn tg st l).attempts,
      cooldownOk cfg env a.prevBalance := by
  induction l generalizing st with
  | nil => simpa [processSources] using h
  | cons s rest ih =>
    rw [processSources]
    split
    · exact h
    · refine ih _ (processVMs_invQ cfg env allowed sn tg s _ st
        (identify_nodup cfg env st.lastBalanceTime s _ (hwf s)) ?_ h)
      intro u hu
      exact allowed_cooldownOk cfg env st.lastBalanceTime u
        (identify_mem_allowed cfg env st.lastBalanceTime s _ u hu)

theorem processStrategies_invQ (cfg : Config) (env : Env) (allowed : Nat)
    (l : List Strategy) (st : TickState)
    (hwf : ∀ n, ((env.nodeVMs n).map VMSummary.vmid).Nodup)
    (h : ∀ a ∈ st.attempts, cooldownOk cfg env a.prevBalance) :
    ∀ a ∈ (processStrategies cfg env allowed st l).attempts,
      cooldownOk cfg env a.prevBalance := by
  induction l generalizing st with
  | nil => simpa [processStrategies] using h
  | cons s rest ih =>
    rw [processStrategies]
    split
    · exact h
    · exact ih _ (processSources_invQ cfg env allowed s.name s.targets _ st
        hwf h)

/-! ## Lemmas: `last_balance_time` write discipline (C3) -/

theorem processVM_attempts_ext (cfg : Config) (env : Env) (sn : String)
    (tg : List String) (src : String) (st : TickState) (v : Nat) :
    ∃ tl, (processVM cfg env sn tg src st v).attempts = st.attempts ++ tl := by
  cases hv : env.vmStatus src v with
  | none => exact ⟨[], by simp [processVM, hv]⟩
  | some vmSt =>
    cases hb : findBestNode env sn tg (src :: cfg.nodeExclusions)
        (getVmRequirements vmSt) with
    | none => exact ⟨[], by simp [processVM, hv, hb]⟩
    | some best =>
      by_cases hm : env.migrateOk src v best
      · exact ⟨[⟨v, src, best, sn, true, st.lastBalanceTime v⟩],
          by simp [processVM, hv, hb, hm]⟩
      · exact ⟨[⟨v, src, best, sn, false, st.lastBalanceTime v⟩],
          by simp [processVM, hv, hb, hm]⟩

theorem processVM_write (cfg : Config) (env : Env) (sn : String)
    (tg : List String) (src : String) (st : TickState) (v u : Nat)
    (h : (processVM cfg env sn tg src st v).lastBalanceTime u ≠
      st.lastBalanceTime u) :
    ∃ a ∈ (processVM cfg env sn tg src st v).attempts,
      a.ok = true ∧ a.vmId = u := by
  cases hv : env.vmStatus src v with
  | none => exact absurd (by simp [processVM, hv]) h
  | some vmSt =>
    cases hb : findBestNode env sn tg (src :: cfg.nodeExclusions)
        (getVmRequirements vmSt) with
    | none => exact absurd (by simp [processVM, hv, hb]) h
    | some best =>
      by_cases hm : env.migrateOk src v best
      · by_cases hu : u = v
        · subst hu
          refine ⟨⟨u, src, best, sn, true, st.lastBalanceTime u⟩, ?_, rfl, rfl⟩
          simp [processVM, hv, hb, hm]
        · exact absurd (by simp [processVM, hv, hb, hm, hu]) h
      · exact absurd (by simp [processVM, hv, hb, hm]) h

theorem processVM_value (cfg : Config) (env : Env) (sn : String)
    (tg : List String) (src : String) (st : TickState) (v u : Nat) (t : ℚ)
    (h : (processVM cfg env sn tg src st v).lastBalanceTime u = some t) :
    st.lastBalanceTime u = some t ∨ t = env.now := by
  cases hv : env.vmStatus src v with
  | none => left; simpa [processVM, hv] using h
  | some vmSt =>
    cases hb : findBestNode env sn tg (src :: cfg.nodeExclusions)
        (getVmRequirements vmSt) with
    | none => left; simpa [processVM, hv, hb] using h
    | some best =>
      by_cases hm : env.migrateOk src v best
      · by_cases hu : u = v
        · subst hu
          simp [processVM, hv, hb, hm] at h
          exact Or.inr h.symm
        · left; simpa [processVM, hv, hb, hm, hu] using h
      · left; simpa [processVM, hv, hb, hm] using h

theorem processVMs_attempts_ext (cfg : Config) (env : Env) (allowed : Nat)
    (sn : String) (tg : List String) (src : String) (l : List Nat)
    (st : TickState) :
    ∃ tl, (processVMs cfg env allowed sn tg src st l).attempts =
      st.attempts ++ tl := by
  induction l generalizing st with
  | nil => exact ⟨[], by simp [processVMs]⟩
  | cons v rest ih =>
    obtain ⟨t1, h1⟩ := processVM_attempts_ext cfg env sn tg src st v
    rw [processVMs]
    split
    · exact ⟨t1, h1⟩
    · obtain ⟨t2, h2⟩ := ih (processVM cfg env sn tg src st v)
      exact ⟨t1 ++ t2, by rw [h2, h1, List.append_assoc]⟩

theorem processVMs_write (cfg : Config) (env : Env) (allowed : Nat)
    (sn : String) (tg : List String) (src : String) (l : List Nat)
    (st : TickState) (u : Nat)
    (h : (processVMs cfg env allowed sn tg src st l).lastBalanceTime u ≠
      st.lastBalanceTime u) :
    ∃ a ∈ (processVMs cfg env allowed sn tg src st l).attempts,
      a.ok = true ∧ a.vmId = u := by
  induction l generalizing st with
  | nil => exact absurd (by simp [processVMs]) h
  | cons v rest ih =>
    rw [processVMs] at h ⊢
    split at h
    · rename_i hc
      rw [if_pos hc]
      exact processVM_write cfg env sn tg src st v u h
    · rename_i hc
      rw [if_neg hc]
      by_cases hw : (processVM cfg env sn tg src st v).lastBalanceTime u =
          st.lastBalanceTime u
      · rw [← hw] at h
        exact ih _ h
      · obtain ⟨a, ha, hok, hid⟩ := processVM_write cfg env sn tg src st v u hw
        obtain ⟨tl, htl⟩ := processVMs_attempts_ext cfg env allowed sn tg src
          rest (processVM cfg env sn tg src st v)
        exact ⟨a, by rw [htl]; exact List.mem_append_left _ ha, hok, hid⟩

theorem processVMs_value (cfg : Config) (env : Env) (allowed : Nat)
    (sn : String) (tg : List String) (src : String) (l : List Nat)
    (st : TickState) (u : Nat) (t : ℚ)
    (h : (processVMs cfg env allowed sn tg src st l).lastBalanceTime u =
      some t) :
    st.lastBalanceTime u = some t ∨ t = env.now := by
  induction l generalizing st with
  | nil => left; simpa [processVMs] using h
  | cons v rest ih =>
    rw [processVMs] at h
    split at h
    · exact processVM_value cfg env sn tg src st v u t h
    · rcases ih _ h with h2 | h2
      · exact processVM_value cfg env sn tg src st v u t h2
      · right; exact h2

theorem processSources_attempts_ext (cfg : Config) (env : Env)
    (allowed : Nat) (sn : String) (tg : List String) (l : List String)
    (st : TickState) :
    ∃ tl, (processSources cfg env allowed sn tg st l).attempts =
      st.attempts ++ tl := by
  induction l generalizing st with
  | nil => exact ⟨[], by simp [processSources]⟩
  | cons s rest ih =>
    rw [processSources]
    split
    · exact ⟨[], by simp⟩
    · obtain ⟨t1, h1⟩ := processVMs_attempts_ext cfg env allowed sn tg s
        (identifyVmsToMigrate cfg env st.lastBalanceTime s
          (allowed - st.performed)) st
      obtain ⟨t2, h2⟩ := ih (processVMs cfg env allowed sn tg s st
        (identifyVmsToMigrate cfg env st.lastBalanceTime s
          (allowed - st.performed)))
      exact ⟨t1 ++ t2, by rw [h2, h1, List.append_assoc]⟩

theorem processSources_write (cfg : Config) (env : Env) (allowed : Nat)
    (sn : String) (tg : List String) (l : List String) (st : TickState)
    (u : Nat)
    (h : (processSources cfg env allowed sn tg st l).lastBalanceTime u ≠
      st.lastBalanceTime u) :
    ∃ a ∈ (processSources cfg env allowed sn tg st l).attempts,
      a.ok = true ∧ a.vmId = u := by
  induction l generalizing st with
  | nil => exact absurd (by simp [processSources]) h
  | cons s rest ih =>
    rw [processSources] at h ⊢
    split at h
    · exact absurd rfl h
    · rename_i hc
      rw [if_neg hc]
      by_cases hw : (processVMs cfg env allowed sn tg s st
          (identifyVmsToMigrate cfg env st.lastBalanceTime s
            (allowed - st.performed))).lastBalanceTime u =
          st.lastBalanceTime u
      · rw [← hw] at h
        exact ih _ h
      · obtain ⟨a, ha, hok, hid⟩ := processVMs_write cfg env allowed sn tg s
          _ st u hw
        obtain ⟨tl, htl⟩ := processSources_attempts_ext cfg env allowed sn tg
          rest _
        exact ⟨a, by rw [htl]; exact List.mem_append_left _ ha, hok, hid⟩

theorem processSources_value (cfg : Config) (env : Env) (allowed : Nat)
    (sn : String) (tg : List String) (l : List String) (st : TickState)
    (u : Nat) (t : ℚ)
    (h : (processSources cfg env allowed sn tg st l).lastBalanceTime u =
      some t) :
    st.lastBalanceTime u = some t ∨ t = env.now := by
  induction l generalizing st with
  | nil => left; simpa [processSources] using h
  | cons s rest ih =>
    rw [processSources] at h
    split at h
    · exact Or.inl h
    · rcases ih _ h with h2 | h2
      · exact processVMs_value cfg env allowed sn tg s _ st u t h2
      · right; exact h2

theorem processStrategies_attempts_ext (cfg : Config) (env : Env)
    (allowed : Nat) (l : List Strategy) (st : TickState) :
    ∃ tl, (processStrategies cfg env allowed st l).attempts =
      st.attempts ++ tl := by
  induction l generalizing st with
  | nil => exact ⟨[], by simp [processStrategies]⟩
  | cons s rest ih =>
    rw [processStrategies]
    split
    · exact ⟨[], by simp⟩
    · obtain ⟨t1, h1⟩ := processSources_attempts_ext cfg env allowed s.name
        s.targets s.sources st
      obtain ⟨t2, h2⟩ := ih (processSources cfg env allowed s.name s.targets
        st s.sources)
      exact ⟨t1 ++ t2, by rw [h2, h1, List.append_assoc]⟩

theorem processStrategies_write (cfg : Config) (env : Env) (allowed : Nat)
    (l : List Strategy) (st : TickState) (u : Nat)
    (h : (processStrategies cfg env allowed st l).lastBalanceTime u ≠
      st.lastBalanceTime u) :
    ∃ a ∈ (processStrategies cfg env allowed st l).attempts,
      a.ok = true ∧ a.vmId = u := by
  induction l generalizing st with
  | nil => exact absurd (by simp [processStrategies]) h
  | cons s rest ih =>
    rw [processStrategies] at h ⊢
    split at h
    · exact absurd rfl h
    · rename_i hc
      rw [if_neg hc]
      by_cases hw : (processSources cfg env allowed s.name s.targets st
          s.sources).lastBalanceTime u = st.lastBalanceTime u
      · rw [← hw] at h
        exact ih _ h
      · obtain ⟨a, ha, hok, hid⟩ := processSources_write cfg env allowed
          s.name s.targets s.sources st u hw
        obtain ⟨tl, htl⟩ := processStrategies_attempts_ext cfg env allowed
          rest _
        exact ⟨a, by rw [htl]; exact List.mem_append_left _ ha, hok, hid⟩

theorem processStrategies_value (cfg : Config) (env : Env) (allowed : Nat)
    (l : List Strategy) (st : TickState) (u : Nat) (t : ℚ)
    (h : (processStrategies cfg env allowed st l).lastBalanceTime u =
      some t) :
    st.lastBalanceTime u = some t ∨ t = env.now := by
  induction l generalizing st with
  | nil => left; simpa [processStrategies] using h
  | cons s rest ih =>
    rw [processStrategies] at h
    split at h
    · exact Or.inl h
    · rcases ih _ h with h2 | h2
      · exact processSources_value cfg env allowed s.name s.targets s.sources
          st u t h2
      · right; exact h2

theorem balanceCluster_write (cfg : Config) (env : Env) (st : LBState)
    (u : Nat)
    (h : (balanceCluster cfg env st).state.lastBalanceTime u ≠
      st.lastBalanceTime u) :
    ∃ a ∈ (balanceCluster cfg env st).attempts, a.ok = true ∧ a.vmId = u := by
  unfold balanceCluster at h ⊢
  split at h
  · exact absurd rfl h
  · rename_i hc
    rw [if_neg hc]
    exact processStrategies_write cfg env _ _ _ u h

theorem balanceCluster_value (cfg : Config) (env : Env) (st : LBState)
    (u : Nat) (t : ℚ)
    (h : (balanceCluster cfg env st).state.lastBalanceTime u = some t) :
    st.lastBalanceTime u = some t ∨ t = env.now := by
  unfold balanceCluster at h
  split at h
  · exact Or.inl h
  · exact processStrategies_value cfg env _ _ _ u t h

theorem monitorMigrations_lastBalance (tasks : List ClusterTask) (now : ℚ)
    (st : LBState) :
    (monitorMigrations tasks now st).lastBalanceTime = st.lastBalanceTime :=
  rfl

theorem periodicUpdateResources_lastBalance (env : Env) (st : LBState) :
    (periodicUpdateResources env st).lastBalanceTime = st.lastBalanceTime :=
  rfl

theorem manualMigrate_write (vs : Option VMStatus) (ok : Bool) (now : ℚ)
    (r : ManualReq) (st : LBState) (u : Nat)
    (h : (manualMigrate vs ok now r st).lastBalanceTime u ≠
      st.lastBalanceTime u) :
    vs.isSome = true ∧ ok = true ∧ r.vmId = u := by
  cases vs with
  | none => exact absurd rfl h
  | some v =>
    by_cases hok : ok
    · by_cases hu : u = r.vmId
      · exact ⟨rfl, hok, hu.symm⟩
      · exact absurd (by simp [manualMigrate, hok, hu]) h
    · exact absurd (by simp [manualMigrate, hok]) h

theorem manualMigrate_value (vs : Option VMStatus) (ok : Bool) (now : ℚ)
    (r : ManualReq) (st : LBState) (u : Nat) (t : ℚ)
    (h : (manualMigrate vs ok now r st).lastBalanceTime u = some t) :
    st.lastBalanceTime u = some t ∨ t = now := by
  cases vs with
  | none => exact Or.inl h
  | some v =>
    by_cases hok : ok
    · by_cases hu : u = r.vmId
      · subst hu
        simp [manualMigrate, hok] at h
        exact Or.inr h.symm
      · left; simpa [manualMigrate, hok, hu] using h
    · left; simpa [manualMigrate, hok] using h

theorem applyOp_write (st : LBState) (op : LBOp) (u : Nat)
    (h : (applyOp st op).lastBalanceTime u ≠ st.lastBalanceTime u) :
    opDispatchedOk st op u := by
  cases op with
  | tick cfg env =>
    obtain ⟨a, ha, hok, hid⟩ := balanceCluster_write cfg env st u h
    exact ⟨a, ha, hok, hid⟩
  | monitor tasks now =>
    exact absurd (congrFun (monitorMigrations_lastBalance tasks now st) u) h
  | periodic env =>
    exact absurd (congrFun (periodicUpdateResources_lastBalance env st) u) h
  | manual vs ok now req => exact manualMigrate_write vs ok now req st u h

theorem applyOp_value (st : LBState) (op : LBOp) (u : Nat) (t : ℚ)
    (h : (applyOp st op).lastBalanceTime u = some t) :
    st.lastBalanceTime u = some t ∨ t = opTime op := by
  cases op with
  | tick cfg env => exact balanceCluster_value cfg env st u t h
  | monitor tasks now =>
    left
    rw [← congrFun (monitorMigrations_lastBalance tasks now st) u]
    exact h
  | periodic env =>
    left
    rw [← congrFun (periodicUpdateResources_lastBalance env st) u]
    exact h
  | manual vs ok now req => exact manualMigrate_value vs ok now req st u t h

theorem foldl_applyOp_value (l : List LBOp) :
    ∀ (st : LBState) (u : Nat) (t : ℚ),
      (l.foldl applyOp st).lastBalanceTime u = some t →
      st.lastBalanceTime u = some t ∨ ∃ o ∈ l, t = opTime o := by
  induction l with
  | nil => intro st u t h; exact Or.inl h
  | cons o rest ih =>
    intro st u t h
    rw [List.foldl_cons] at h
    rcases ih (applyOp st o) u t h with h2 | h2
    · rcases applyOp_value st o u t h2 with h3 | h3
      · exact Or.inl h3
      · exact Or.inr ⟨o, List.mem_cons_self o rest, h3⟩
    · obtain ⟨o2, ho2, ht⟩ := h2
      exact Or.inr ⟨o2, List.mem_cons_of_mem o ho2, ht⟩

theorem applyTrace_value (ops : List LBOp) (u : Nat) (t : ℚ)
    (h : (applyTrace ops).lastBalanceTime u = some t) :
    ∃ o ∈ ops, t = opTime o := by
  rcases foldl_applyOp_value ops initialLBState u t h with h2 | h2
  · simp [initialLBState] at h2
  · exact h2

/-! ## Lemmas: performance-history cap (C5) -/

theorem pushTrimSample_length (l : List PerfSample) (s : PerfSample) :
    (pushTrimSample l s).length ≤ 100 := by
  by_cases h : (l ++ [s]).length > 100
  · simp only [pushTrimSample, if_pos h, List.length_drop]
    omega
  · simp only [pushTrimSample, if_neg h]
    simp only [List.length_append, List.length_singleton] at h ⊢
    omega

theorem periodicPerVM_cases (env : Env) (node : String)
    (perf : Nat → Option (List PerfSample)) (vm : VMSummary) (v : Nat) :
    periodicPerVM env node perf vm v = perf v ∨
      ∃ s, periodicPerVM env node perf vm v =
        some (pushTrimSample ((perf v).getD []) s) := by
  by_cases hr : (vm.status == "running") = true
  · cases hv : env.vmStatus node vm.vmid with
    | none => exact Or.inl (by simp [periodicPerVM, hr, hv])
    | some vs =>
      by_cases hvm : v = vm.vmid
      · subst hvm
        exact Or.inr ⟨⟨env.now, some vs.cpu, some vs.mem, node, none⟩,
          by simp [periodicPerVM, hr, hv]⟩
      · exact Or.inl (by simp [periodicPerVM, hr, hv, hvm])
  · exact Or.inl (by simp [periodicPerVM, hr])

theorem periodicVMFold_bound (env : Env) (node : String)
    (l : List VMSummary) (perf : Nat → Option (List PerfSample)) (v : Nat) :
    (((l.foldl (periodicPerVM env node) perf) v).getD []).length ≤
      max (((perf v).getD []).length) 100 := by
  induction l generalizing perf with
  | nil => simp
  | cons vm rest ih =>
    rw [List.foldl_cons]
    refine le_trans (ih _) ?_
    rcases periodicPerVM_cases env node perf vm v with h | ⟨s, h⟩
    · rw [h]
    · rw [h]
      have := pushTrimSample_length ((perf v).getD []) s
      simp only [Option.getD_some]
      omega

theorem periodicNodeFold_bound (env : Env) (l : List NodeEntry)
    (perf : Nat → Option (List PerfSample)) (v : Nat) :
    (((l.foldl (periodicPerNode env) perf) v).getD []).length ≤
      max (((perf v).getD []).length) 100 := by
  induction l generalizing perf with
  | nil => simp
  | cons nd rest ih =>
    rw [List.foldl_cons]
    refine le_trans (ih _) ?_
    unfold periodicPerNode
    split
    · have := periodicVMFold_bound env nd.node (env.nodeVMs nd.node) perf v
      omega
    · exact le_refl _

/-! ## Lemmas: the migration tracker (C6) -/

theorem pickLatest_aux (l : List ClusterTask) :
    ∀ (acc : Option ClusterTask) (t : ClusterTask),
      l.foldl (fun best u =>
        match best with
        | none => some u
        | some b => if u.starttime > b.starttime then some u else some b)
        acc = some t →
      (t ∈ l ∨ acc = some t) ∧ (∀ u ∈ l, u.starttime ≤ t.starttime) ∧
        (∀ b, acc = some b → b.starttime ≤ t.starttime) := by
  induction l with
  | nil =>
    intro acc t h
    rw [List.foldl_nil] at h
    refine ⟨Or.inr h, by simp, fun b hb => ?_⟩
    rw [h] at hb
    injection hb with hb2
    rw [← hb2]
  | cons u rest ih =>
    intro acc t h
    rw [List.foldl_cons] at h
    cases acc with
    | none =>
      obtain ⟨h1, h2, h3⟩ := ih (some u) t h
      refine ⟨?_, ?_, ?_⟩
      · rcases h1 with h1 | h1
        · exact Or.inl (List.mem_cons_of_mem u h1)
        · cases h1; exact Or.inl (List.mem_cons_self u rest)
      · intro u2 hu2
        rcases List.mem_cons.1 hu2 with rfl | hu2
        · exact h3 u2 rfl
        · exact h2 u2 hu2
      · intro b hb; cases hb
    | some b =>
      dsimp only at h
      by_cases hgt : u.starttime > b.starttime
      · rw [if_pos hgt] at h
        obtain ⟨h1, h2, h3⟩ := ih (some u) t h
        refine ⟨?_, ?_, ?_⟩
        · rcases h1 with h1 | h1
          · exact Or.inl (List.mem_cons_of_mem u h1)
          · cases h1; exact Or.inl (List.mem_cons_self u rest)
        · intro u2 hu2
          rcases List.mem_cons.1 hu2 with rfl | hu2
          · exact h3 u2 rfl
          · exact h2 u2 hu2
        · intro b2 hb2
          cases hb2
          exact le_trans (le_of_lt hgt) (h3 u rfl)
      · rw [if_neg hgt] at h
        obtain ⟨h1, h2, h3⟩ := ih (some b) t h
        refine ⟨?_, ?_, ?_⟩
        · rcases h1 with h1 | h1
          · exact Or.inl (List.mem_cons_of_mem u h1)
          · exact Or.inr h1
        · intro u2 hu2
          rcases List.mem_cons.1 hu2 with rfl | hu2
          · exact le_trans (le_of_not_lt hgt) (h3 b rfl)
          · exact h2 u2 hu2
        · exact h3
    

theorem pickLatest_spec (tasks : List ClusterTask) (t : ClusterTask)
    (h : pickLatest tasks = some t) :
    t ∈ tasks ∧ ∀ u ∈ tasks, u.starttime ≤ t.starttime := by
  obtain ⟨h1, h2, _⟩ := pickLatest_aux tasks none t h
  refine ⟨?_, h2⟩
  rcases h1 with h1 | h1
  · exact h1
  · cases h1

theorem monitorMigrations_history (tasks : List ClusterTask) (now : ℚ)
    (st : LBState) :
    (monitorMigrations tasks now st).migrationHistory =
      st.migrationHistory.map (resolveRecord tasks now) := by
  suffices key : ∀ (l : List MigRecord) (init : List MigRecord)
      (perf : Nat → Option (List PerfSample)),
      (l.foldl (fun acc m =>
        (acc.1 ++ [resolveRecord tasks now m],
          if m.result == "initiated" &&
              (resolveRecord tasks now m).result == "success" then
            perfAppendIfPresent acc.2 m.vmId
              ⟨now, none, none, m.targetNode, some true⟩
          else if m.result == "initiated" &&
              (resolveRecord tasks now m).result == "failed" then
            perfAppendIfPresent acc.2 m.vmId
              ⟨now, none, none, m.sourceNode, some false⟩
          else acc.2)) (init, perf)).1 = init ++ l.map (resolveRecord tasks now) by
    simpa [monitorMigrations] using key st.migrationHistory [] st.vmPerfHistory
  intro l
  induction l with
  | nil => intro init perf; simp
  | cons m rest ih =>
    intro init perf
    rw [List.foldl_cons, List.map_cons]
    rw [ih]
    simp

/-! ## Lemmas: resource-weight normalization (C8) -/

theorem storeResourceWeights_sum_close (w : List (String × ℚ))
    (h0 : weightsSum w ≠ 0) :
    |weightsSum (storeResourceWeights w) - 1| ≤ 1 / 100 := by
  have key : ∀ T : ℚ, weightsSum (w.map fun p => (p.1, p.2 / T)) =
      weightsSum w / T := by
    intro T
    unfold weightsSum
    rw [List.map_map]
    have he : ((fun p : String × ℚ => p.2) ∘
        fun p : String × ℚ => (p.1, p.2 / T)) =
        fun p : String × ℚ => p.2 * T⁻¹ := by
      funext p
      simp [div_eq_mul_inv]
    rw [he, List.sum_map_mul_right, div_eq_mul_inv]
  by_cases hc : |weightsSum w - 1| > 1 / 100
  · have hsum : weightsSum (storeResourceWeights w) = 1 := by
      rw [storeResourceWeights, if_pos hc, key (weightsSum w)]
      exact div_self h0
    rw [hsum]
    norm_num
  · rw [storeResourceWeights, if_neg hc]
    exact le_of_not_lt hc

/-! ## Lemmas: scorer feasibility (C9) -/

theorem calculateNodeScore_some_feasible (f : ℚ → ℚ) (w : ScoreWeights)
    (hA : ℚ) (n : SNode) (r : VMReq) (s : ℚ)
    (h : calculateNodeScore f w hA n (some r) = some s) :
    r.cpu ≤ n.maxcpu * (1 - n.cpuHistory.getLastD 0) ∧
      r.memory ≤ n.memFree ∧ r.disk ≤ n.diskFree := by
  by_cases he : n.cpuHistory.isEmpty
  · simp [calculateNodeScore, he] at h
  · simp [calculateNodeScore, he] at h
    simpa [List.getLastD_eq_getLast?] using h.1

theorem calculateNodeScore_infeasible (f : ℚ → ℚ) (w : ScoreWeights)
    (hA : ℚ) (n : SNode) (r : VMReq)
    (hnot : ¬(r.cpu ≤ n.maxcpu * (1 - n.cpuHistory.getLastD 0) ∧
      r.memory ≤ n.memFree ∧ r.disk ≤ n.diskFree)) :
    calculateNodeScore f w hA n (some r) = none := by
  by_cases he : n.cpuHistory.isEmpty
  · simp [calculateNodeScore, he]
  · simp only [List.getLastD_eq_getLast?] at hnot
    simp [calculateNodeScore, he]
    intro hA hB
    by_contra hC
    push_neg at hC
    exact hnot ⟨hA, hB, hC⟩

theorem selectStep_spec (f : ℚ → ℚ) (w : ScoreWeights) (hA : ℚ)
    (req : Option VMReq) (nodes0 : List SNode) (l : List SNode) :
    ∀ acc : Option (String × ℚ),
      (∀ n ∈ l, n ∈ nodes0) →
      (∀ p, acc = some p → ∃ n ∈ nodes0, n.name = p.1 ∧
        calculateNodeScore f w hA n req = some p.2) →
      ∀ p, l.foldl (selectStep f w hA req) acc = some p →
        ∃ n ∈ nodes0, n.name = p.1 ∧
          calculateNodeScore f w hA n req = some p.2 := by
  induction l with
  | nil =>
    intro acc _ hacc p h
    rw [List.foldl_nil] at h
    exact hacc p h
  | cons n rest ih =>
    intro acc hsub hacc p h
    rw [List.foldl_cons] at h
    refine ih _ (fun m hm => hsub m (List.mem_cons_of_mem n hm)) ?_ p h
    intro q hq
    unfold selectStep at hq
    cases hs : calculateNodeScore f w hA n req with
    | none =>
      rw [hs] at hq
      exact hacc q hq
    | some s =>
      rw [hs] at hq
      cases acc with
      | none =>
        dsimp only at hq
        injection hq with hq2
        exact ⟨n, hsub n (List.mem_cons_self n rest), by rw [← hq2], by
          rw [← hq2]; exact hs⟩
      | some b =>
        dsimp only at hq
        by_cases hlt : s < b.2
        · rw [if_pos hlt] at hq
          injection hq with hq2
          exact ⟨n, hsub n (List.mem_cons_self n rest), by rw [← hq2], by
            rw [← hq2]; exact hs⟩
        · rw [if_neg hlt] at hq
          exact hacc q hq

theorem selectBestNode_feasible (f : ℚ → ℚ) (w : ScoreWeights) (hA : ℚ)
    (nodes : List SNode) (r : VMReq) (excluded : List String) (name : String)
    (h : selectBestNode f w hA nodes (some r) excluded = some name) :
    ∃ n ∈ nodes, n.name = name ∧ r.memory ≤ n.memFree := by
  unfold selectBestNode at h
  obtain ⟨p, hp, hpname⟩ := Option.map_eq_some'.1 h
  obtain ⟨n, hn, hnname, hnscore⟩ := selectStep_spec f w hA (some r) nodes
    (nodes.filter (fun n => n.online && !(excluded.contains n.name)))
    none (fun m hm => List.mem_of_mem_filter hm) (fun q hq => by cases hq)
    p hp
  exact ⟨n, hn, hpname ▸ hnname,
    (calculateNodeScore_some_feasible f w hA n r p.2 hnscore).2.1⟩

/-! ## Lemmas: the VM z-score bound (C10) -/

theorem getLastD_ne_nil (l : List ℝ) (hl : l ≠ []) (d d' : ℝ) :
    l.getLastD d = l.getLastD d' := by
  obtain ⟨x, hx⟩ := Option.isSome_iff_exists.1 (List.getLast?_isSome.2 hl)
  rw [List.getLastD_eq_getLast?, List.getLastD_eq_getLast?, hx]
  rfl

theorem getLastD_drop (l : List ℝ) (k : Nat) (h : l.drop k ≠ []) :
    (l.drop k).getLastD 0 = l.getLastD 0 := by
  induction l generalizing k with
  | nil => simp at h
  | cons a t ih =>
    cases k with
    | zero => rfl
    | succ k2 =>
      rw [List.drop_succ_cons] at h ⊢
      rw [ih k2 h]
      have ht : t ≠ [] := by
        intro he
        rw [he, List.drop_nil] at h
        exact h rfl
      rw [List.getLastD_cons]
      exact getLastD_ne_nil t ht 0 a

theorem vmWindow_length (history : List ℝ) (h : 5 ≤ history.length) :
    (vmWindow history).length = 5 := by
  unfold vmWindow
  rw [List.length_drop]
  omega

theorem vmCurrentCpu_eq_window_last (history : List ℝ)
    (h : 5 ≤ history.length) :
    vmCurrentCpu history = (vmWindow history).getLastD 0 := by
  unfold vmCurrentCpu vmWindow
  refine (getLastD_drop history (history.length - 5) ?_).symm
  intro he
  have h2 := congrArg List.length he
  rw [List.length_drop] at h2
  simp at h2
  omega

theorem list_eq_five (l : List ℝ) (h : l.length = 5) :
    ∃ a b c d e, l = [a, b, c, d, e] := by
  cases l with
  | nil => simp at h
  | cons a l1 =>
    cases l1 with
    | nil => simp at h
    | cons b l2 =>
      cases l2 with
      | nil => simp at h
      | cons c l3 =>
        cases l3 with
        | nil => simp at h
        | cons d l4 =>
          cases l4 with
          | nil => simp at h
          | cons e l5 =>
            cases l5 with
            | nil => exact ⟨a, b, c, d, e, rfl⟩
            | cons f l6 =>
              simp at h

theorem samuelson5 (a b c d e : ℝ) :
    5 * (e - (a + b + c + d + e) / 5) ^ 2 ≤
      4 * ((a - (a + b + c + d + e) / 5) ^ 2 +
        (b - (a + b + c + d + e) / 5) ^ 2 +
        (c - (a + b + c + d + e) / 5) ^ 2 +
        (d - (a + b + c + d + e) / 5) ^ 2 +
        (e - (a + b + c + d + e) / 5) ^ 2) := by
  nlinarith [sq_nonneg (a - b), sq_nonneg (a - c), sq_nonneg (a - d),
    sq_nonneg (b - c), sq_nonneg (b - d), sq_nonneg (c - d),
    sq_nonneg (a + b + c + d - 4 * e)]

theorem vm_z_bound (history : List ℝ) (h5 : 5 ≤ history.length) :
    vmCurrentCpu history - vmWindowMean history ≤ 2 * vmWindowStd history := by
  have hw5 := vmWindow_length history h5
  have hcur := vmCurrentCpu_eq_window_last history h5
  have hvar : vmWindowStd history ^ 2 =
      ((vmWindow history).map
        (fun x => (x - vmWindowMean history) ^ 2)).sum / 5 := by
    unfold vmWindowStd
    refine Real.sq_sqrt ?_
    refine div_nonneg ?_ (by norm_num)
    refine List.sum_nonneg ?_
    intro x hx
    obtain ⟨y, _, rfl⟩ := List.mem_map.1 hx
    positivity
  have hstdnn : 0 ≤ vmWindowStd history := Real.sqrt_nonneg _
  have hmean : vmWindowMean history = (vmWindow history).sum / 5 := rfl
  obtain ⟨a, b, c, d, e, hw⟩ := list_eq_five (vmWindow history) hw5
  rw [hw] at hcur hvar hmean
  simp only [List.map_cons, List.map_nil, List.sum_cons, List.sum_nil,
    List.getLastD_cons, List.getLastD_nil] at hcur hvar hmean
  rw [hcur, hmean]
  nlinarith [hvar, hstdnn, samuelson5 a b c d e,
    sq_nonneg (e - (a + b + c + d + e) / 5 - 2 * vmWindowStd history),
    sq_nonneg (e - (a + b + c + d + e) / 5 + 2 * vmWindowStd history)]

/-! ## Concrete scenarios used by the claim theorems -/

/-- The default configuration of `load_config`
(src/load_balancer.py:54-93). -/
def defaultConfig : Config :=
  { highLoadThreshold := 8 / 10
    lowLoadThreshold := 2 / 10
    minBalanceInterval := 3600
    maxParallelMigrations := 2
    migrateHighLoad := true
    vmExclusions := []
    nodeExclusions := []
    considerAffinity := true
    vmGroups := []
    considerTimeOfDay := true
    offHoursStart := 22
    offHoursEnd := 6 }

/-- An environment in which every hypervisor query returns nothing. -/
def envEmpty : Env :=
  { runningTasks := []
    nodesUsage := []
    nodes := []
    nodeVMs := fun _ => []
    vmStatus := fun _ _ => none
    canAccept := fun _ _ => false
    selectBest := fun _ _ => none
    migrateOk := fun _ _ _ => false
    now := 0
    currentHour := 0 }

/-- An environment observing three running `qmigrate` cluster tasks — one
above the default parallelism cap, as can happen with externally started
migrations. -/
def envInflightThree : Env :=
  { envEmpty with runningTasks :=
      [⟨"qmigrate", "UPID:A:t1", "running", "", 1⟩,
       ⟨"qmigrate", "UPID:B:t2", "running", "", 2⟩,
       ⟨"qmigrate", "UPID:C:t3", "running", "", 3⟩] }

/-- The default configuration with `min_balance_interval = 0` and an
affinity group split over nodes `A` (VMs 201, 202) and `B`
(VMs 203, 204, 205). -/
def cfgNoCooldown : Config :=
  { defaultConfig with
    minBalanceInterval := 0
    vmGroups := [("g", [201, 202, 203, 204, 205])]
    considerTimeOfDay := false }

/-- A cluster where the affinity group of `cfgNoCooldown` yields the source
list `[A, A]`: node `A` holds group members 201 (running) and 202
(stopped), node `B` holds the majority. -/
def envDoubleDispatch : Env :=
  { runningTasks := []
    nodesUsage := [⟨"A", "online", 1 / 2, 1, 2⟩, ⟨"B", "online", 1 / 2, 1, 2⟩]
    nodes := [⟨"A", "online"⟩, ⟨"B", "online"⟩]
    nodeVMs := fun n =>
      if n = "A" then [⟨201, "running", 3 / 10⟩, ⟨202, "stopped", 0⟩]
      else if n = "B" then
        [⟨203, "running", 1 / 10⟩, ⟨204, "running", 1 / 10⟩,
         ⟨205, "running", 1 / 10⟩]
      else []
    vmStatus := fun n v =>
      if n = "A" ∧ v = 201 then
        some ⟨"running", "vm201", 3 / 10, 2 ^ 29, some 1, none, some (2 ^ 30),
          some (2 ^ 33)⟩
      else none
    canAccept := fun _ _ => true
    selectBest := fun _ _ => none
    migrateOk := fun _ _ _ => true
    now := 1000
    currentHour := 12 }

/-! ## C1: dispatches per tick against the parallelism cap -/

/-- C1, counterexample: with the default cap of 2 and three running
`qmigrate` cluster tasks observed at the start of the tick, the tick
performs zero dispatches, yet dispatches + inflight = 3 exceeds
`max_parallel_migrations` — the claimed sum bound fails when external
migrations push the observed inflight count above the cap. -/
theorem parallel_cap_counterexample :
    (okVmids (balanceCluster defaultConfig envInflightThree
      initialLBState).attempts).length = 0 ∧
    inflightCount envInflightThree = 3 ∧
    defaultConfig.maxParallelMigrations = 2 ∧
    defaultConfig.maxParallelMigrations <
      (okVmids (balanceCluster defaultConfig envInflightThree
        initialLBState).attempts).length + inflightCount envInflightThree := by
  decide

/-- C1 (amended): in every tick of `balance_cluster`, the number of
successful `migrate_vm` dispatches is at most
`max_parallel_migrations - inflight` (truncated subtraction), so
dispatches + inflight ≤ `max_parallel_migrations` whenever the observed
inflight count is within the cap; and when the observed inflight count is
at least `max_parallel_migrations`, the tick performs no `migrate_vm` calls
at all and returns `False`. -/
theorem parallel_cap_amended (cfg : Config) (env : Env) (st : LBState) :
    (okVmids (balanceCluster cfg env st).attempts).length ≤
      cfg.maxParallelMigrations - inflightCount env ∧
    (cfg.maxParallelMigrations ≤ inflightCount env →
      (balanceCluster cfg env st).attempts = [] ∧
      (balanceCluster cfg env st).returnValue = false) := by
  constructor
  · by_cases h : cfg.maxParallelMigrations ≤ inflightCount env
    · simp [balanceCluster, h, okVmids]
    · have hok := processStrategies_okCount cfg env
        (cfg.maxParallelMigrations - inflightCount env)
        (buildStrategies cfg env
          (cfg.maxParallelMigrations - inflightCount env))
        ⟨st.lastBalanceTime, st.migrationHistory, st.vmPerfHistory, 0, []⟩
        (by simp [okVmids])
      have hle := processStrategies_le cfg env
        (cfg.maxParallelMigrations - inflightCount env)
        (buildStrategies cfg env
          (cfg.maxParallelMigrations - inflightCount env))
        ⟨st.lastBalanceTime, st.migrationHistory, st.vmPerfHistory, 0, []⟩
        (Nat.zero_le _)
      simp only [balanceCluster, if_neg h]
      rw [hok]
      exact hle
  · intro h
    simp [balanceCluster, h]

/-- C1, witness for the amended theorem at the three-inflight scenario. -/
theorem parallel_cap_witness :
    (balanceCluster defaultConfig envInflightThree initialLBState).attempts
      = [] ∧
    (balanceCluster defaultConfig envInflightThree
      initialLBState).returnValue = false :=
  (parallel_cap_amended defaultConfig envInflightThree initialLBState).2
    (by decide)

/-! ## C2: per-VM dispatch discipline -/

/-- C2, counterexample: with `min_balance_interval = 0`, one tick dispatches
VM 201 twice — the affinity strategy lists node `A` once per group member
it holds, `identify_vms_to_migrate` runs twice on `A`, and the zero
cool-down lets 201 pass the gate again after its first dispatch in the same
tick. -/
theorem per_vm_dispatch_counterexample :
    okVmids (balanceCluster cfgNoCooldown envDoubleDispatch
      initialLBState).attempts = [201, 201] ∧
    cfgNoCooldown.minBalanceInterval = 0 := by
  constructor
  · norm_num [balanceCluster, processStrategies, processSources, processVMs,
      processVM, buildStrategies, affinityStrategies, vmLocations, firstOccs,
      firstMaxNode, detectOverloadedNodes, detectUnderloadedNodes, memFrac,
      inflightCount, identifyVmsToMigrate, isMigrationAllowed, isOffHours,
      sortByCpuDesc, insertByCpu, findBestNode, getVmRequirements, perfAppend,
      okVmids, initialLBState, cfgNoCooldown, defaultConfig, envDoubleDispatch,
      List.filter, List.find?, List.filterMap, List.count]
  · norm_num [cfgNoCooldown, defaultConfig]

/-- C2 (amended): provided no node's VM list repeats a vmid, every
`migrate_vm` call of a tick (successful or rejected) is made for a vmid
whose recorded last balance time either does not exist or lies at least
`min_balance_interval` before the tick time; and if additionally
`min_balance_interval` is positive, the tick dispatches each vmid
successfully at most once. -/
theorem per_vm_dispatch_amended (cfg : Config) (env : Env) (st : LBState)
    (hwf : ∀ n, ((env.nodeVMs n).map VMSummary.vmid).Nodup) :
    (∀ a ∈ (balanceCluster cfg env st).attempts,
      cooldownOk cfg env a.prevBalance) ∧
    (0 < cfg.minBalanceInterval →
      (okVmids (balanceCluster cfg env st).attempts).Nodup) := by
  by_cases h : cfg.maxParallelMigrations ≤ inflightCount env
  · constructor
    · intro a ha
      simp [balanceCluster, h] at ha
    · intro _
      simp [balanceCluster, h, okVmids]
  · constructor
    · have hq := processStrategies_invQ cfg env
        (cfg.maxParallelMigrations - inflightCount env)
        (buildStrategies cfg env
          (cfg.maxParallelMigrations - inflightCount env))
        ⟨st.lastBalanceTime, st.migrationHistory, st.vmPerfHistory, 0, []⟩
        hwf (by simp)
      simp only [balanceCluster, if_neg h]
      exact hq
    · intro hmin
      have hinv := processStrategies_inv2 cfg env
        (cfg.maxParallelMigrations - inflightCount env)
        (buildStrategies cfg env
          (cfg.maxParallelMigrations - inflightCount env))
        ⟨st.lastBalanceTime, st.migrationHistory, st.vmPerfHistory, 0, []⟩
        hmin hwf ⟨by simp, by simp [okVmids], by simp⟩
      simp only [balanceCluster, if_neg h]
      exact hinv.2.1

/-- C2, witness for the amended theorem at an empty cluster with the
default configuration, discharging both the well-formedness assumption and
the positive cool-down interval. -/
theorem per_vm_dispatch_witness :
    (∀ a ∈ (balanceCluster defaultConfig envEmpty initialLBState).attempts,
      cooldownOk defaultConfig envEmpty a.prevBalance) ∧
    (okVmids (balanceCluster defaultConfig envEmpty
      initialLBState).attempts).Nodup :=
  ⟨(per_vm_dispatch_amended defaultConfig envEmpty initialLBState
      (fun n => by simp [envEmpty])).1,
    (per_vm_dispatch_amended defaultConfig envEmpty initialLBState
      (fun n => by simp [envEmpty])).2 (by norm_num [defaultConfig])⟩

/-! ## C3: `last_balance_time` write discipline -/

/-- A VM status used in concrete traces. -/
def vmStatusDemo : VMStatus :=
  ⟨"running", "vm100", 1 / 10, 2 ^ 28, some 1, none, some (2 ^ 30),
    some (2 ^ 33)⟩

/-- C3: over any execution of ticks, tracker passes, periodic resource
updates and manual migrations, (i) the tracker (`monitor_migrations`) never
writes `last_balance_time`, and (ii) neither does the periodic resource
update; (iii) any operation that changes `last_balance_time[v]` is a tick
containing a successful dispatch for `v` or a manual migration of `v` that
the hypervisor accepted — in particular the tracker's resolutions and
rejected dispatches write nothing; (iv) along any execution, extending a
trace by operations whose times are not earlier than those of the trace
never decreases the recorded value of any vmid. -/
theorem last_balance_time_discipline :
    (∀ (tasks : List ClusterTask) (now : ℚ) (st : LBState),
      (monitorMigrations tasks now st).lastBalanceTime =
        st.lastBalanceTime) ∧
    (∀ (env : Env) (st : LBState),
      (periodicUpdateResources env st).lastBalanceTime =
        st.lastBalanceTime) ∧
    (∀ (st : LBState) (op : LBOp) (v : Nat),
      (applyOp st op).lastBalanceTime v ≠ st.lastBalanceTime v →
      opDispatchedOk st op v) ∧
    (∀ (ops ext : List LBOp) (v : Nat) (t t' : ℚ),
      (∀ o ∈ ops, ∀ o2 ∈ ext, opTime o ≤ opTime o2) →
      (applyTrace ops).lastBalanceTime v = some t →
      (applyTrace (ops ++ ext)).lastBalanceTime v = some t' →
      t ≤ t') := by
  refine ⟨monitorMigrations_lastBalance, periodicUpdateResources_lastBalance,
    applyOp_write, ?_⟩
  intro ops ext v t t' hcross h1 h2
  rw [applyTrace, List.foldl_append] at h2
  rcases foldl_applyOp_value ext (applyTrace ops) v t' h2 with h3 | h3
  · rw [h1] at h3
    injection h3 with h4
    exact le_of_eq h4
  · obtain ⟨o2, ho2, ht2⟩ := h3
    obtain ⟨o, ho, hto⟩ := applyTrace_value ops v t h1
    rw [hto, ht2]
    exact hcross o ho o2 ho2

/-- C3, witness: a manual dispatch at time 1 followed by a trace extension
at time 2 leaves a non-decreasing `last_balance_time[100]`. -/
theorem last_balance_time_discipline_witness : (1 : ℚ) ≤ 2 :=
  last_balance_time_discipline.2.2.2
    [LBOp.manual (some vmStatusDemo) true 1 ⟨100, "A", "B"⟩]
    [LBOp.manual (some vmStatusDemo) true 2 ⟨100, "A", "B"⟩] 100 1 2
    (by
      intro o ho o2 ho2
      simp only [List.mem_singleton] at ho ho2
      rw [ho, ho2]
      norm_num [opTime])
    (by rfl) (by rfl)

/-! ## C4: the off-hours window of the migration gate -/

/-- The default configuration restricted to the gate: off-hours 22-6,
`consider_time_of_day` on, no exclusions. -/
def cfgOffHoursDemo : Config := defaultConfig

/-- The empty environment observed at hour `h`. -/
def envAtHour (h : Nat) : Env := { envEmpty with currentHour := h }

/-- C4: the off-hours window check satisfies the stated case split
(`start < end` means `start ≤ h < end`; otherwise the window wraps midnight
and `h ≥ start ∨ h < end`); with the default 22-6 window the gate permits
migration at hours 23 and 3 and forbids it at hour 12; and with
`consider_time_of_day` off the gate does not depend on the hour. -/
theorem off_hours_gate :
    (∀ s e h : Nat, s < e → (isOffHours s e h = true ↔ s ≤ h ∧ h < e)) ∧
    (∀ s e h : Nat, e ≤ s → (isOffHours s e h = true ↔ s ≤ h ∨ h < e)) ∧
    (isMigrationAllowed cfgOffHoursDemo (envAtHour 23) (fun _ => none) 100
        = true ∧
      isMigrationAllowed cfgOffHoursDemo (envAtHour 3) (fun _ => none) 100
        = true ∧
      isMigrationAllowed cfgOffHoursDemo (envAtHour 12) (fun _ => none) 100
        = false) ∧
    (∀ (cfg : Config) (env : Env) (lb : Nat → Option ℚ) (v : Nat)
        (h h' : Nat), cfg.considerTimeOfDay = false →
      isMigrationAllowed cfg { env with currentHour := h } lb v =
        isMigrationAllowed cfg { env with currentHour := h' } lb v) := by
  refine ⟨?_, ?_, by decide, ?_⟩
  · intro s e h hse
    simp [isOffHours, hse]
  · intro s e h hse
    simp [isOffHours, Nat.not_lt.2 hse]
  · intro cfg env lb v h h' hoff
    simp [isMigrationAllowed, hoff]

/-- C4, witness: the in-day window case at `start=1, end=2, h=1`. -/
theorem off_hours_gate_witness :
    isOffHours 1 2 1 = true ↔ 1 ≤ 1 ∧ 1 < 2 :=
  off_hours_gate.1 1 2 1 (by decide)

/-! ## C7 scenario (also used for the C5 counterexample) -/

/-- An identity stand-in for the square-root realization of the modelled
scorer; the scenario below only uses the scorer through feasibility, which
does not involve the penalty term. -/
def sqrtId : ℚ → ℚ := fun q => q

/-- The scorer weights used in the concrete scenario. -/
def scoreWeightsDemo : ScoreWeights := ⟨4 / 10, 4 / 10, 15 / 100⟩

/-- The scorer snapshot of node `A` in the affinity scenario: half-loaded,
four vCPUs, ample free memory and disk. -/
def snodeDemoA : SNode :=
  ⟨"A", true, 4, 2 ^ 32, 2 ^ 40, [1 / 2], [1 / 2], [1 / 10]⟩

/-- The configuration of the affinity-consolidation scenario: group
`app = {101, 102, 103}`, time-of-day gating off. -/
def cfgAffinityDemo : Config :=
  { defaultConfig with
    vmGroups := [("app", [101, 102, 103])]
    considerTimeOfDay := false }

/-- The cluster of the affinity scenario: nodes `A` and `B` online at
mid-range load (no overload, no underload), VMs 101 and 102 on `A`, VM 103
on `B`; the node selector accepts `A` via the spec-modelled scorer; every
dispatch succeeds. -/
def envAffinityDemo : Env :=
  { runningTasks := []
    nodesUsage := [⟨"A", "online", 1 / 2, 1, 2⟩, ⟨"B", "online", 1 / 2, 1, 2⟩]
    nodes := [⟨"A", "online"⟩, ⟨"B", "online"⟩]
    nodeVMs := fun n =>
      if n = "A" then [⟨101, "running", 3 / 10⟩, ⟨102, "running", 2 / 10⟩]
      else if n = "B" then [⟨103, "running", 4 / 10⟩]
      else []
    vmStatus := fun n v =>
      if n = "B" ∧ v = 103 then
        some ⟨"running", "vm103", 4 / 10, 2 ^ 29, some 1, none, some (2 ^ 30),
          some (2 ^ 33)⟩
      else if n = "A" ∧ v = 101 then
        some ⟨"running", "vm101", 3 / 10, 2 ^ 29, some 1, none, some (2 ^ 30),
          some (2 ^ 33)⟩
      else if n = "A" ∧ v = 102 then
        some ⟨"running", "vm102", 2 / 10, 2 ^ 29, some 1, none, some (2 ^ 30),
          some (2 ^ 33)⟩
      else none
    canAccept := fun n req =>
      if n = "A" then
        (calculateNodeScore sqrtId scoreWeightsDemo 1 snodeDemoA
          (some req)).isSome
      else false
    selectBest := fun _ _ => none
    migrateOk := fun _ _ _ => true
    now := 1000
    currentHour := 12 }

/-- C7: for the configured group `app = {101 on A, 102 on A, 103 on B}` with
no overloaded node, the tick builds exactly one strategy — `affinity` with
target `A` (the node holding most group members) and sources `[B]` — and
dispatches VM 103 from `B` to `A`, recording reason `affinity`. -/
theorem affinity_consolidation_scenario :
    detectOverloadedNodes cfgAffinityDemo envAffinityDemo = [] ∧
    buildStrategies cfgAffinityDemo envAffinityDemo 2 =
      [⟨"affinity", ["B"], ["A"]⟩] ∧
    (balanceCluster cfgAffinityDemo envAffinityDemo
      initialLBState).attempts.map
        (fun a => (a.vmId, a.source, a.target, a.reason, a.ok)) =
      [(103, "B", "A", "affinity", true)] ∧
    (balanceCluster cfgAffinityDemo envAffinityDemo
      initialLBState).state.migrationHistory.map
        (fun m => (m.vmId, m.sourceNode, m.targetNode, m.reason, m.result)) =
      [(103, "B", "A", "affinity", "initiated")] ∧
    (balanceCluster cfgAffinityDemo envAffinityDemo
      initialLBState).returnValue = true := by
  norm_num [balanceCluster, processStrategies, processSources, processVMs,
    processVM, buildStrategies, affinityStrategies, vmLocations, firstOccs,
    firstMaxNode, detectOverloadedNodes, detectUnderloadedNodes, memFrac,
    inflightCount, identifyVmsToMigrate, isMigrationAllowed, isOffHours,
    sortByCpuDesc, insertByCpu, findBestNode, getVmRequirements, perfAppend,
    okVmids, initialLBState, calculateNodeScore, predictNext, clamp01,
    olsPredict, lastN, stddevWith, sqrtId, scoreWeightsDemo, snodeDemoA,
    cfgAffinityDemo, defaultConfig, envAffinityDemo, List.filter, List.find?,
    List.filterMap, List.count]
  simp

/-! ## C5: the performance-history cap -/

/-- A performance sample used to pre-fill a history at the cap. -/
def perfSampleDemo : PerfSample := ⟨0, none, none, "B", none⟩

/-- A balancer state whose history for VM 103 already holds 100 samples. -/
def stCapDemo : LBState :=
  { initialLBState with
    vmPerfHistory := fun v =>
      if v = 103 then some (List.replicate 100 perfSampleDemo) else none }

/-- C5, counterexample: a dispatch-time append (src/load_balancer.py:514-523)
does not trim, so a tick that dispatches VM 103 grows its 100-sample series
to 101 samples, exceeding the claimed cap. -/
theorem history_cap_counterexample :
    ((((balanceCluster cfgAffinityDemo envAffinityDemo
      stCapDemo).state.vmPerfHistory 103).getD []).length = 101) ∧
    100 < 101 := by
  refine ⟨?_, by norm_num⟩
  norm_num [balanceCluster, processStrategies, processSources, processVMs,
    processVM, buildStrategies, affinityStrategies, vmLocations, firstOccs,
    firstMaxNode, detectOverloadedNodes, detectUnderloadedNodes, memFrac,
    inflightCount, identifyVmsToMigrate, isMigrationAllowed, isOffHours,
    sortByCpuDesc, insertByCpu, findBestNode, getVmRequirements, perfAppend,
    okVmids, initialLBState, stCapDemo, calculateNodeScore, predictNext,
    clamp01, olsPredict, lastN, stddevWith, sqrtId, scoreWeightsDemo,
    snodeDemoA, cfgAffinityDemo, defaultConfig, envAffinityDemo, List.filter,
    List.find?, List.filterMap, List.count]
  simp [perfAppend]

/-- C5 (amended): only the periodic resource update enforces the cap — its
push-and-trim always leaves at most 100 samples, and after
`periodic_update_resources` every series is no longer than the larger of
its previous length and 100; appends made on dispatch or by the tracker do
not trim (see the counterexample). -/
theorem history_cap_amended :
    (∀ (l : List PerfSample) (s : PerfSample),
      (pushTrimSample l s).length ≤ 100) ∧
    (∀ (env : Env) (st : LBState) (v : Nat),
      (((periodicUpdateResources env st).vmPerfHistory v).getD []).length ≤
        max (((st.vmPerfHistory v).getD []).length) 100) :=
  ⟨pushTrimSample_length, fun env st v => by
    unfold periodicUpdateResources
    exact periodicNodeFold_bound env env.nodes st.vmPerfHistory v⟩

/-! ## C6: the migration tracker -/

/-- C6: `monitor_migrations` maps each record through `resolveRecord`; a
record not in state `initiated` is never changed (idempotence on resolved
records); only `initiated` records can change; the matched task is one of
the matching tasks and carries their greatest `starttime`; and a `stopped`
matched task resolves the record to `success` with a completion time
(exitstatus `OK`) or to `failed` with the exitstatus recorded as the
error. -/
theorem migration_tracker_correct :
    (∀ (tasks : List ClusterTask) (now : ℚ) (st : LBState),
      (monitorMigrations tasks now st).migrationHistory =
        st.migrationHistory.map (resolveRecord tasks now)) ∧
    (∀ (tasks : List ClusterTask) (now : ℚ) (m : MigRecord),
      m.result ≠ "initiated" → resolveRecord tasks now m = m) ∧
    (∀ (tasks : List ClusterTask) (now : ℚ) (m : MigRecord),
      resolveRecord tasks now m ≠ m → m.result = "initiated") ∧
    (∀ (tasks : List ClusterTask) (t : ClusterTask),
      pickLatest tasks = some t →
      t ∈ tasks ∧ ∀ u ∈ tasks, u.starttime ≤ t.starttime) ∧
    (∀ (tasks : List ClusterTask) (now : ℚ) (m : MigRecord)
        (task : ClusterTask), m.result = "initiated" →
      pickLatest (tasks.filter (taskMatches m.vmId m.sourceNode)) =
        some task →
      task.status = "stopped" →
      ((task.exitstatus = "OK" → resolveRecord tasks now m =
          { m with result := "success", completionTime := some now }) ∧
        (task.exitstatus ≠ "OK" → resolveRecord tasks now m =
          { m with result := "failed", completionTime := some now,
                   error := some task.exitstatus }))) := by
  refine ⟨monitorMigrations_history, ?_, ?_, pickLatest_spec, ?_⟩
  · intro tasks now m h
    simp [resolveRecord, h]
  · intro tasks now m h
    by_contra h2
    exact h (by simp [resolveRecord, h2])
  · intro tasks now m task hinit hpick hstop
    constructor
    · intro hok
      simp [resolveRecord, hinit, hpick, hstop, hok]
    · intro hok
      simp [resolveRecord, hinit, hpick, hstop, hok]

/-- An initiated migration record for VM 7 from node `A`. -/
def migRecordDemo : MigRecord :=
  ⟨7, "A", "B", 0, "high_to_low", "vm7", "initiated", none, none⟩

/-- A stopped, successful `qmigrate` task matching `migRecordDemo`. -/
def taskDemo : ClusterTask :=
  ⟨"qmigrate", "UPID:A:qmigrate:7:", "stopped", "OK", 10⟩

/-- C6, witness: the tracker resolves the concrete initiated record against
the concrete task list to `success` with the completion time. -/
theorem migration_tracker_witness :
    resolveRecord [taskDemo] 42 migRecordDemo =
      { migRecordDemo with result := "success", completionTime := some 42 } :=
  ((migration_tracker_correct.2.2.2.2 [taskDemo] 42 migRecordDemo taskDemo
    rfl (by decide) rfl).1) rfl

/-! ## C8: resource-weight normalization on config writes -/

/-- A submitted weights map whose sum 1.005 lies within the 0.01 tolerance
of 1. -/
def weightsCloseDemo : List (String × ℚ) := [("cpu", 101 / 200), ("memory", 1 / 2)]

/-- C8, counterexample: a weights map summing to 201/200 is within 0.01 of
1, so both config-write paths store it as given — and the stored weights
then sum to 201/200, not 1. -/
theorem weights_sum_counterexample :
    storeResourceWeights weightsCloseDemo = weightsCloseDemo ∧
    weightsSum (storeResourceWeights weightsCloseDemo) = 201 / 200 ∧
    1 < weightsSum (storeResourceWeights weightsCloseDemo) := by
  have hsum : weightsSum weightsCloseDemo = 201 / 200 := by
    norm_num [weightsSum, weightsCloseDemo]
  have hstore : storeResourceWeights weightsCloseDemo = weightsCloseDemo := by
    rw [storeResourceWeights, if_neg]
    rw [hsum]
    rw [abs_of_nonneg (by norm_num)]
    norm_num
  refine ⟨hstore, ?_, ?_⟩
  · rw [hstore, hsum]
  · rw [hstore, hsum]
    norm_num

/-- C8 (amended): after any configuration write with a nonzero submitted
total, the stored `resource_weights` sum lies within 0.01 of 1 — exactly 1
when the submitted sum is farther than 0.01 from 1 (each weight is divided
by the total), and the submitted (possibly ≠ 1) sum otherwise, since a map
within the tolerance is stored as given. -/
theorem weights_sum_amended (w : List (String × ℚ))
    (h0 : weightsSum w ≠ 0) :
    |weightsSum (storeResourceWeights w) - 1| ≤ 1 / 100 ∧
    (1 / 100 < |weightsSum w - 1| →
      weightsSum (storeResourceWeights w) = 1) ∧
    (¬(1 / 100 < |weightsSum w - 1|) → storeResourceWeights w = w) := by
  refine ⟨storeResourceWeights_sum_close w h0, ?_, ?_⟩
  · intro hc
    have key : ∀ T : ℚ, weightsSum (w.map fun p => (p.1, p.2 / T)) =
        weightsSum w / T := by
      intro T
      unfold weightsSum
      rw [List.map_map]
      have he : ((fun p : String × ℚ => p.2) ∘
          fun p : String × ℚ => (p.1, p.2 / T)) =
          fun p : String × ℚ => p.2 * T⁻¹ := by
        funext p
        simp [div_eq_mul_inv]
      rw [he, List.sum_map_mul_right, div_eq_mul_inv]
    rw [storeResourceWeights, if_pos hc, key (weightsSum w)]
    exact div_self h0
  · intro hc
    rw [storeResourceWeights, if_neg hc]

/-- C8, witness for the amended theorem at a map summing to 2 (which the
write normalizes). -/
theorem weights_sum_witness :
    |weightsSum (storeResourceWeights [("cpu", (2 : ℚ))]) - 1| ≤ 1 / 100 :=
  (weights_sum_amended [("cpu", (2 : ℚ))]
    (by norm_num [weightsSum])).1

/-! ## C9: scorer feasibility (modelled from the spec) -/

/-- C9: for the scorer modelled from the spec, an infeasible requirement
yields score `+∞` (`none`) — in particular whenever the required memory
exceeds the node's free memory — and `select_best_node` never returns a
node whose free memory the requirement exceeds. -/
theorem scorer_feasibility (f : ℚ → ℚ) (w : ScoreWeights) (hA : ℚ)
    (n : SNode) (r : VMReq) :
    (¬(r.cpu ≤ n.maxcpu * (1 - n.cpuHistory.getLastD 0) ∧
        r.memory ≤ n.memFree ∧ r.disk ≤ n.diskFree) →
      calculateNodeScore f w hA n (some r) = none) ∧
    (n.memFree < r.memory → calculateNodeScore f w hA n (some r) = none) ∧
    (∀ (nodes : List SNode) (excluded : List String) (name : String),
      selectBestNode f w hA nodes (some r) excluded = some name →
      ∃ m ∈ nodes, m.name = name ∧ r.memory ≤ m.memFree) := by
  refine ⟨calculateNodeScore_infeasible f w hA n r, ?_, ?_⟩
  · intro hmem
    exact calculateNodeScore_infeasible f w hA n r
      (fun hcon => absurd hcon.2.1 (not_le.2 hmem))
  · intro nodes excluded name h
    exact selectBestNode_feasible f w hA nodes r excluded name h

/-- A node with a load history but no free memory. -/
def snodeFullDemo : SNode := ⟨"N", true, 1, 0, 0, [1 / 2], [1 / 2], [1 / 2]⟩

/-- C9, witness: a 1-GiB requirement on the memory-less node scores
`+∞`. -/
theorem scorer_feasibility_witness :
    calculateNodeScore sqrtId scoreWeightsDemo 1 snodeFullDemo
      (some ⟨1, 2 ^ 30, 2 ^ 30⟩) = none :=
  (scorer_feasibility sqrtId scoreWeightsDemo 1 snodeFullDemo
    ⟨1, 2 ^ 30, 2 ^ 30⟩).2.1 (by norm_num [snodeFullDemo])

/-! ## C10: the `vm_cpu_spike` anomaly is unreachable -/

/-- C10: `detect_anomalies` can never emit a `vm_cpu_spike` entry — the
current value it tests is the last element of the same 5-sample window
whose mean and standard deviation it computes, so the deviation is at most
2 standard deviations and the required z-score of 3 is unreachable. -/
theorem vm_cpu_spike_unreachable :
    (∀ history : List ℝ, vmCpuSpike history = False) ∧
    (∀ history : List ℝ, 5 ≤ history.length →
      vmCurrentCpu history - vmWindowMean history ≤
        2 * vmWindowStd history) := by
  refine ⟨?_, vm_z_bound⟩
  intro history
  refine eq_false ?_
  rintro ⟨h5, hstd, hz⟩
  have hb := vm_z_bound history h5
  rw [lt_div_iff₀ hstd] at hz
  nlinarith [hstd, hb, hz]

/-- A 5-sample CPU history ending in a spike. -/
def histSpikeDemo : List ℝ := [0, 0, 0, 0, 1]

/-- C10, witness: the z-bound applied to the concrete spiky history. -/
theorem vm_cpu_spike_unreachable_witness :
    vmCurrentCpu histSpikeDemo - vmWindowMean histSpikeDemo ≤
      2 * vmWindowStd histSpikeDemo :=
  vm_cpu_spike_unreachable.2 histSpikeDemo (by norm_num [histSpikeDemo])

end LB